import Mathlib

/-!
Verification development for the build-number GitHub Action (`src/main.ts`).

The TypeScript source is shallowly embedded below.  Conventions:

* Machine strings are Lean `String`s at the Unicode-codepoint level.  Every
  identifier the validator accepts is ASCII, where JS UTF-16 lengths and
  codepoint lengths agree.
* JS `Number(raw)` (used by `parseInteger`) is modelled for the forms the
  program exercises: surrounding whitespace, an optional sign, and decimal
  digits; other numeric literal forms (hex, fractional values) are outside
  every claim considered here and map to `none` (= not a finite integer).
* The `fetch` exchange is an oracle: the outcome of each physical attempt is a
  value of type `Outcome`.  A `Retry-After` header is modelled by the result
  of `parseInteger` on its (nonempty) text: `intVal n` when JS `Number`
  yields the finite integer `n`, `malformed` when `parseInteger` throws.
  An absent or empty header is `none` (the source guards with `ra ?`, and
  the empty string is falsy in JS).
* `new URL(base + path)` followed by `searchParams.set` and `toString()` is
  collapsed to string concatenation of the path and the single query pair
  in `buildUrl`; the normalization the URL constructor also performs
  (whitespace stripping, path percent-encoding, dot-segment resolution,
  query and fragment splitting) is modelled separately by `urlSuffixParts`
  and `urlSerializeSuffix`, shown to be the identity on the paths the
  collapsed form is used for and consulted where arbitrary operation
  strings reach the path.
* The host automation platform (`@actions/core`) is modelled by a trace of
  `Event`s: `setSecret`, `setOutput`, `setFailed`, and the single
  `httpRequest` the action issues.  `run().catch(core.setFailed)` makes the
  embedded `runMain` a total function ending in a `setFailed` event on any
  thrown error, so no error escapes the process boundary in the model.
-/

/-- Constant `MAX_ATTEMPTS` from the source. -/
def MAX_ATTEMPTS : Nat := 5

/-- Constant `BASE_URL` from the source. -/
def BASE_URL : String := "https://abacus.jasoncameron.dev"

/-- JS `String.prototype.trim()`, modelled on the character list: whitespace
stripped from both ends (`Char.isWhitespace` standing for the JS whitespace
set, which agrees on the ASCII whitespace every claim exercises). -/
def jsTrim (s : String) : String :=
  String.mk (((s.data.dropWhile Char.isWhitespace).reverse.dropWhile Char.isWhitespace).reverse)

/-- Character class of `NAME_RE`, i.e. `[A-Za-z0-9_.-]`. -/
def isNameChar (c : Char) : Bool :=
  c.isAlpha || c.isDigit || c == '_' || c == '.' || c == '-'

/-- Test `NAME_RE.test value` for `NAME_RE = /^[A-Za-z0-9_.-]\x7b3,64\x7d$/`:
between 3 and 64 characters, all drawn from the class. -/
def nameReTest (s : String) : Bool :=
  decide (3 ≤ s.length) && decide (s.length ≤ 64) && s.data.all isNameChar

/-- Function `requireNonEmpty` from the source: throws when the string is empty or
blank (JS `!value || value.trim().length === 0`). -/
def requireNonEmpty (name value : String) : Except String Unit :=
  if value == "" || jsTrim value == "" then
    Except.error ("Missing required input: " ++ name)
  else Except.ok ()

/-- Function `validateName` from the source: tests `NAME_RE` and throws with a message
quoting the offending value. -/
def validateName (kind value : String) : Except String Unit :=
  if nameReTest value then Except.ok ()
  else
    Except.error
      ("Invalid " ++ kind ++ ": must match ^[A-Za-z0-9_-.]\x7b3,64\x7d$ (got \""
        ++ value ++ "\")")

/-- Value of a nonempty all-digit character list, `none` otherwise. -/
def digitsVal (cs : List Char) : Option Nat :=
  if cs ≠ [] && cs.all Char.isDigit then
    some (cs.foldl (fun acc c => acc * 10 + (c.toNat - 48)) 0)
  else none

/-- Model of JS `Number(raw)` restricted to results that are finite integers:
trimmed empty string is `0`; an optional sign followed by decimal digits is
the corresponding integer; anything else yields `none` (NaN, a fractional
value, or a literal form no claim exercises). -/
def jsNumberInt (raw : String) : Option Int :=
  let t := jsTrim raw
  match t.data with
  | [] => some 0
  | '-' :: rest => (digitsVal rest).map (fun n => -(n : Int))
  | '+' :: rest => (digitsVal rest).map (fun n => (n : Int))
  | cs => (digitsVal cs).map (fun n => (n : Int))

/-- Function `parseInteger` from the source: `Number(raw)` must be a finite integer,
otherwise an error quoting the raw text is thrown. -/
def parseInteger (name raw : String) : Except String Int :=
  match jsNumberInt raw with
  | some v => Except.ok v
  | none => Except.error ("Invalid " ++ name ++ ": expected integer, got \"" ++ raw ++ "\"")

/-- Function `isAdminOp` from the source.  The operation is kept as a raw string
because the source casts the input with `as Operation` without checking. -/
def isAdminOp (op : String) : Bool :=
  op == "set" || op == "update" || op == "reset" || op == "delete"

/-- Function `methodFor` from the source. -/
def methodFor (op : String) : String :=
  if isAdminOp op then "POST" else "GET"

/-- JS `url.endsWith("/")`: the last character is a slash. -/
def jsEndsWithSlash (s : String) : Bool :=
  match s.data.getLast? with
  | some c => c == '/'
  | none => false

/-- Function `normalizeBaseUrl` from the source. -/
def normalizeBaseUrl (url : String) : String :=
  if jsEndsWithSlash url then url.dropRight 1 else url

/-- UTF-8 bytes of a character, as naturals below 256. -/
def utf8Bytes (c : Char) : List Nat :=
  let n := c.toNat
  if n < 0x80 then [n]
  else if n < 0x800 then [0xC0 + n / 0x40, 0x80 + n % 0x40]
  else if n < 0x10000 then
    [0xE0 + n / 0x1000, 0x80 + (n / 0x40) % 0x40, 0x80 + n % 0x40]
  else
    [0xF0 + n / 0x40000, 0x80 + (n / 0x1000) % 0x40, 0x80 + (n / 0x40) % 0x40,
      0x80 + n % 0x40]

/-- Uppercase hexadecimal digit. -/
def hexDigitChar (n : Nat) : Char :=
  if n < 10 then Char.ofNat (48 + n) else Char.ofNat (55 + n)

/-- A percent-escaped byte, e.g. `%2F`. -/
def percentByte (b : Nat) : String :=
  "%" ++ String.singleton (hexDigitChar (b / 16)) ++ String.singleton (hexDigitChar (b % 16))

/-- Characters JS `encodeURIComponent` leaves unescaped. -/
def uriUnreserved (c : Char) : Bool :=
  c.isAlpha || c.isDigit || c == '-' || c == '_' || c == '.' || c == '!' ||
    c == '~' || c == '*' || c == Char.ofNat 39 || c == '(' || c == ')'

/-- Model of JS `encodeURIComponent`: unreserved characters pass through,
every other character is replaced by the percent-escapes of its UTF-8
bytes. -/
def encodeURIComponent (s : String) : String :=
  s.data.foldl
    (fun acc c =>
      acc ++ (if uriUnreserved c then String.singleton c
              else String.join ((utf8Bytes c).map percentByte)))
    ""

/-- Function `buildUrl` from the source.  `new URL(base + path)`, the two conditional
`searchParams.set` calls and `toString()` are modelled as concatenating the
path with the single applicable query pair (the operation never being both
`create` and `set`/`update`, at most one pair applies). -/
def buildUrl (op ns key : String) (initializer value : Option Int) : String :=
  let base := normalizeBaseUrl BASE_URL
  let path := "/" ++ op ++ "/" ++ encodeURIComponent ns ++ "/" ++ encodeURIComponent key
  let q :=
    (if op == "create" then
      match initializer with
      | some n => "?initializer=" ++ toString n
      | none => ""
    else "") ++
    (if op == "set" || op == "update" then
      match value with
      | some n => "?value=" ++ toString n
      | none => ""
    else "")
  base ++ path ++ q

/-- Parse outcome of a present, nonempty `Retry-After` header: `intVal n`
when JS `Number` on its text yields the finite integer `n`, `malformed`
when `parseInteger` would throw. -/
inductive RetryAfterVal where
  | intVal (n : Int)
  | malformed
  deriving DecidableEq

/-- Outcome of one physical `fetch` attempt: a response with a status and an
optional `Retry-After` header, or a network-level failure (the promise
rejected). -/
inductive Outcome where
  | response (status : Nat) (retryAfter : Option RetryAfterVal)
  | networkError
  deriving DecidableEq

/-- Result of `requestWithRetries`: the response returned (with the 1-based
index of the attempt that produced it), or the network error propagated from
the final attempt. -/
inductive RetryOutput where
  | success (attempt : Nat) (status : Nat)
  | failure (attempt : Nat)
  deriving DecidableEq

/-- Number of physical attempts performed. -/
def attemptsOf : RetryOutput → Nat
  | .success a _ => a
  | .failure a => a

/-- Wait chosen on a retried 429: `Math.max(0, parseInteger(ra))` when the
header parses, the stored backoff when the header is absent; a malformed
header makes `parseInteger` throw inside the `try`, and the `catch` then
sleeps the stored backoff. -/
def wait429 (backoffMs : Nat) (ra : Option RetryAfterVal) : Nat :=
  match ra with
  | some (.intVal n) => (max 0 n).toNat
  | some .malformed => backoffMs
  | none => backoffMs

/-- The `while (true)` loop of `requestWithRetries`, entered with the attempt
counter still at its pre-increment value.  Each iteration increments the
counter, consults the oracle for the outcome of that attempt and either returns,
propagates, or waits and doubles the backoff (capped at 8000).  The list
collects the waits performed, in order. -/
def requestLoop (outcomes : Nat → Outcome) (attempt backoffMs : Nat) :
    RetryOutput × List Nat :=
  match outcomes (attempt + 1) with
  | .networkError =>
    if h : attempt + 1 < MAX_ATTEMPTS then
      let r := requestLoop outcomes (attempt + 1) (min (backoffMs * 2) 8000)
      (r.1, backoffMs :: r.2)
    else (.failure (attempt + 1), [])
  | .response st ra =>
    if h : st = 429 ∧ attempt + 1 < MAX_ATTEMPTS then
      let r := requestLoop outcomes (attempt + 1) (min (backoffMs * 2) 8000)
      (r.1, wait429 backoffMs ra :: r.2)
    else if h2 : (500 ≤ st ∧ st ≤ 599) ∧ attempt + 1 < MAX_ATTEMPTS then
      let r := requestLoop outcomes (attempt + 1) (min (backoffMs * 2) 8000)
      (r.1, backoffMs :: r.2)
    else (.success (attempt + 1) st, [])
termination_by MAX_ATTEMPTS - attempt
decreasing_by
  all_goals simp_wf
  all_goals omega

/-- Function `requestWithRetries` from the source: the loop starts with `attempt = 0`
(incremented to 1 on entry) and `backoffMs = 500`. -/
def requestWithRetries (outcomes : Nat → Outcome) : RetryOutput × List Nat :=
  requestLoop outcomes 0 500

/-- An outcome that the executor retries while attempts remain: a network
error, a 429, or a 5xx response. -/
def isQualifying : Outcome → Bool
  | .networkError => true
  | .response st _ => st == 429 || (decide (500 ≤ st) && decide (st ≤ 599))

/-- Whether the attempt outcome carries a `Retry-After` header. -/
def hasRetryAfterHeader : Outcome → Bool
  | .response _ (some _) => true
  | _ => false

/-- One doubling of the backoff, capped at 8000. -/
def dblCap (b : Nat) : Nat := min (b * 2) 8000

/-- Untyped JSON value, the shape `JSON.parse` can produce.  JS numbers are
restricted to the integers the claims exercise. -/
inductive Json where
  | null
  | bool (b : Bool)
  | num (n : Int)
  | str (s : String)
  | arr (elems : List Json)
  | obj (fields : List (String × Json))

/-- Whether a JSON value is `null`. -/
def Json.isNull : Json → Bool
  | .null => true
  | _ => false

/-- Property access `payload.someField` on an untyped JS value: a lookup on
objects (later duplicate keys win, as in `JSON.parse`), `undefined` (here
`none`) on anything else.  A `null` receiver, on which an unguarded JS
access would throw a TypeError (reachable only for a 2xx body spelling
exactly `null`), is likewise modelled as `none`. -/
def Json.getField : Json → String → Option Json
  | .obj fields, k => fields.foldl (fun acc p => if p.1 == k then some p.2 else acc) none
  | _, _ => none

mutual

/-- JS `String(value)` on a decoded JSON value: identity on strings, decimal
for integers, `true`/`false`, `[object Object]` for objects, and the
comma-join of elements for arrays (with `null` elements rendering empty). -/
def jsString : Json → String
  | .null => "null"
  | .bool true => "true"
  | .bool false => "false"
  | .num n => toString n
  | .str s => s
  | .arr elems => String.intercalate "," (jsStringElems elems)
  | .obj _ => "[object Object]"

/-- Array elements rendered for JS `Array.prototype.toString`. -/
def jsStringElems : List Json → List String
  | [] => []
  | j :: rest => (if j.isNull then "" else jsString j) :: jsStringElems rest

end

/-- A response body: its full text together with the oracle outcome of JS
`JSON.parse` on that text (`some` = parse succeeded). -/
structure Body where
  text : String
  json : Option Json

/-- Function `readJsonSafely` from the source: empty text gives an empty object, a
parse success gives the parsed value, and a parse failure wraps the raw text
as an `error` payload instead of failing. -/
def readJsonSafely (b : Body) : Json :=
  if b.text == "" then Json.obj []
  else
    match b.json with
    | some j => j
    | none => Json.obj [("error", Json.str b.text)]

/-- An HTTP response as the run sees it: status code and body. -/
structure HttpRes where
  status : Nat
  body : Body

/-- Observable calls the action makes into the host platform and the network,
in program order. -/
inductive Event where
  | setSecret (s : String)
  | setOutput (name : String) (value : String)
  | setFailed (msg : String)
  | httpRequest (url : String) (method : String) (headers : List (String × String))
  deriving DecidableEq

/-- Inputs of the action as returned by `core.getInput` (absent inputs are the
empty string). -/
structure Inputs where
  operation : String
  ns : String
  key : String
  initializer : String
  value : String
  admin_key : String

/-- Defaulting `core.getInput("operation") || "hit"`: the empty string is falsy. -/
def opOf (inp : Inputs) : String :=
  if inp.operation == "" then "hit" else inp.operation

/-- Lines 144-147 of `run`: namespace and key checked for presence and then
against `NAME_RE`, in that order. -/
def validateBasics (inp : Inputs) : Except String Unit :=
  match requireNonEmpty "namespace" inp.ns with
  | .error m => .error m
  | .ok _ =>
    match requireNonEmpty "key" inp.key with
    | .error m => .error m
    | .ok _ =>
      match validateName "namespace" inp.ns with
      | .error m => .error m
      | .ok _ => validateName "key" inp.key

/-- Lines 158-163 of `run`: the value-missing check for `set`/`update`, then
`initializer` parsed for `create` (the raw input defaulting to `"0"` when
empty) and `value` parsed for `set`/`update`. -/
def parsePhase (inp : Inputs) (operation : String) :
    Except String (String × Option Int × Option Int) :=
  if (operation == "set" || operation == "update") &&
      (inp.value == "" || jsTrim inp.value == "") then
    Except.error ("Missing required input: value (required for operation=" ++ operation ++ ")")
  else
    match
      (if operation == "create" then
        (parseInteger "initializer"
          (if inp.initializer == "" then "0" else inp.initializer)).map some
      else Except.ok none) with
    | .error m => .error m
    | .ok i =>
      match
        (if operation == "set" || operation == "update" then
          (parseInteger "value" inp.value).map some
        else Except.ok none) with
      | .error m => .error m
      | .ok v => Except.ok (operation, i, v)

/-- The validation prefix of `run`, up to but not including `buildUrl`: the
events emitted so far (the `core.setSecret` on the input credential for admin
operations) together with either the thrown validation error or the
operation and its parsed parameters. -/
def validatePhase (inp : Inputs) :
    List Event × Except String (String × Option Int × Option Int) :=
  let operation := opOf inp
  match validateBasics inp with
  | .error m => ([], .error m)
  | .ok _ =>
    if isAdminOp operation then
      match requireNonEmpty "admin_key" inp.admin_key with
      | .error m => ([], .error m)
      | .ok _ => ([Event.setSecret inp.admin_key], parsePhase inp operation)
    else ([], parsePhase inp operation)

/-- Lines 168-174 of `run`: the `Accept` header always, plus the bearer
authorization header for admin operations. -/
def headersFor (operation adminKey : String) : List (String × String) :=
  ("Accept", "application/json") ::
    (if isAdminOp operation then [("Authorization", "Bearer " ++ adminKey)] else [])

/-- Function `setOutputIfPresent` from the source: skips `undefined` and `null`,
otherwise emits `String(value)`. -/
def setOutputIfPresent (name : String) (v : Option Json) : List Event :=
  match v with
  | none => []
  | some Json.null => []
  | some j => [Event.setOutput name (jsString j)]

/-- Lines 187-210 of `run`: the common `value` output and then the
operation-specific outputs, including the `core.setSecret` on a returned
string `admin_key` (issued after its output). -/
def outputEvents (operation : String) (payload : Json) : List Event :=
  setOutputIfPresent "value" (payload.getField "value") ++
  (if operation == "create" then
    setOutputIfPresent "namespace" (payload.getField "namespace") ++
    setOutputIfPresent "key" (payload.getField "key") ++
    setOutputIfPresent "admin_key" (payload.getField "admin_key") ++
    (match payload.getField "admin_key" with
     | some (Json.str s) => [Event.setSecret s]
     | _ => [])
  else []) ++
  (if operation == "info" then
    setOutputIfPresent "exists" (payload.getField "exists") ++
    setOutputIfPresent "expires_in" (payload.getField "expires_in") ++
    setOutputIfPresent "expires_str" (payload.getField "expires_str") ++
    setOutputIfPresent "full_key" (payload.getField "full_key") ++
    setOutputIfPresent "is_genuine" (payload.getField "is_genuine")
  else []) ++
  (if operation == "delete" then
    setOutputIfPresent "status" (payload.getField "status") ++
    setOutputIfPresent "message" (payload.getField "message")
  else [])

/-- Function `run` composed with the top-level `run().catch(core.setFailed)`: the full
trace of one invocation.  The network is the `exchange` oracle standing for
what `requestWithRetries` returns (its resolved response or its propagated
error message); validation errors, network errors and non-2xx statuses all
end the trace with a `setFailed`, so nothing is thrown past the process
boundary. -/
def runMain (inp : Inputs) (exchange : Except String HttpRes) : List Event :=
  match validatePhase inp with
  | (ev, .error m) => ev ++ [Event.setFailed m]
  | (ev, .ok (operation, i, v)) =>
    let url := buildUrl operation inp.ns inp.key i v
    let req := Event.httpRequest url (methodFor operation) (headersFor operation inp.admin_key)
    match exchange with
    | .error m => ev ++ [req, Event.setFailed m]
    | .ok res =>
      let payload := readJsonSafely res.body
      if 200 ≤ res.status ∧ res.status ≤ 299 then
        ev ++ req :: outputEvents operation payload
      else
        let em :=
          match payload.getField "error" with
          | some (Json.str e) => e
          | _ => "Request failed with status " ++ toString res.status
        ev ++ [req, Event.setFailed (em ++ " (operation=" ++ operation ++ ")")]

/-- Whether an event uses or emits the credential `s`: outputting it as a
value, or sending it as a bearer token. -/
def emitsValue (e : Event) (s : String) : Bool :=
  match e with
  | .setOutput _ v => v == s
  | .httpRequest _ _ headers => headers.any (fun p => p.2 == "Bearer " ++ s)
  | _ => false

/-- Scan of a trace: `true` iff every event using or emitting `s` is preceded
by a `setSecret s`; the accumulator records whether one has been seen. -/
def mbuAux (s : String) : List Event → Bool → Bool
  | [], _ => true
  | e :: rest, seen =>
    match e with
    | .setSecret t => mbuAux s rest (seen || t == s)
    | _ => (!emitsValue e s || seen) && mbuAux s rest seen

/-- The credential `s` is secret-marked before every use or emission in the
trace. -/
def markedBeforeEveryUse (tr : List Event) (s : String) : Bool :=
  mbuAux s tr false

/-- Whether the event is the HTTP request. -/
def isHttpRequestEvent : Event → Bool
  | .httpRequest _ _ _ => true
  | _ => false

/-- One retried 429 iteration: the loop records the header-or-backoff wait
and continues with the attempt incremented and the backoff doubled
(capped), regardless of what the wait was. -/
theorem requestLoop_step429 (o : Nat → Outcome) (attempt b : Nat)
    (ra : Option RetryAfterVal)
    (hlt : attempt + 1 < MAX_ATTEMPTS)
    (hout : o (attempt + 1) = Outcome.response 429 ra) :
    requestLoop o attempt b =
      ((requestLoop o (attempt + 1) (min (b * 2) 8000)).1,
        wait429 b ra :: (requestLoop o (attempt + 1) (min (b * 2) 8000)).2) := by
  rw [requestLoop, hout]
  dsimp only
  rw [dif_pos ⟨rfl, hlt⟩]

/-- One retried 5xx iteration: the loop waits the stored backoff and
continues with the backoff doubled (capped). -/
theorem requestLoop_step5xx (o : Nat → Outcome) (attempt b st : Nat)
    (ra : Option RetryAfterVal)
    (hst : 500 ≤ st ∧ st ≤ 599)
    (hlt : attempt + 1 < MAX_ATTEMPTS)
    (hout : o (attempt + 1) = Outcome.response st ra) :
    requestLoop o attempt b =
      ((requestLoop o (attempt + 1) (min (b * 2) 8000)).1,
        b :: (requestLoop o (attempt + 1) (min (b * 2) 8000)).2) := by
  rw [requestLoop, hout]
  dsimp only
  rw [dif_neg (by omega), dif_pos ⟨hst, hlt⟩]

/-- One retried network-error iteration: the loop waits the stored backoff
and continues with the backoff doubled (capped). -/
theorem requestLoop_stepNet (o : Nat → Outcome) (attempt b : Nat)
    (hlt : attempt + 1 < MAX_ATTEMPTS)
    (hout : o (attempt + 1) = Outcome.networkError) :
    requestLoop o attempt b =
      ((requestLoop o (attempt + 1) (min (b * 2) 8000)).1,
        b :: (requestLoop o (attempt + 1) (min (b * 2) 8000)).2) := by
  rw [requestLoop, hout]
  dsimp only
  rw [dif_pos hlt]

/-- A response that no retry rule claims is returned as-is. -/
theorem requestLoop_returnRes (o : Nat → Outcome) (attempt b st : Nat)
    (ra : Option RetryAfterVal)
    (hout : o (attempt + 1) = Outcome.response st ra)
    (h1 : ¬(st = 429 ∧ attempt + 1 < MAX_ATTEMPTS))
    (h2 : ¬((500 ≤ st ∧ st ≤ 599) ∧ attempt + 1 < MAX_ATTEMPTS)) :
    requestLoop o attempt b = (RetryOutput.success (attempt + 1) st, []) := by
  rw [requestLoop, hout]
  dsimp only
  rw [dif_neg h1, dif_neg h2]

/-- A network error on the final allowed attempt propagates. -/
theorem requestLoop_failNet (o : Nat → Outcome) (attempt b : Nat)
    (hge : ¬(attempt + 1 < MAX_ATTEMPTS))
    (hout : o (attempt + 1) = Outcome.networkError) :
    requestLoop o attempt b = (RetryOutput.failure (attempt + 1), []) := by
  rw [requestLoop, hout]
  dsimp only
  rw [dif_neg hge]

/-- The attempt index the loop finally reports is bounded: at most
`MAX_ATTEMPTS`, or the entry attempt plus one when entered beyond the
ceiling. -/
theorem requestLoop_attempts_le (o : Nat → Outcome) :
    ∀ fuel attempt b, MAX_ATTEMPTS - attempt ≤ fuel →
      attemptsOf (requestLoop o attempt b).1 ≤ max MAX_ATTEMPTS (attempt + 1) := by
  have hM : MAX_ATTEMPTS = 5 := rfl
  intro fuel
  induction fuel with
  | zero =>
    intro attempt b h
    rcases hout : o (attempt + 1) with ⟨st, ra⟩ | _
    · rw [requestLoop_returnRes o attempt b st ra hout (by omega) (by omega)]
      simp [attemptsOf]
    · rw [requestLoop_failNet o attempt b (by omega) hout]
      simp [attemptsOf]
  | succ n ih =>
    intro attempt b h
    rcases hout : o (attempt + 1) with ⟨st, ra⟩ | _
    · by_cases h429 : st = 429 ∧ attempt + 1 < MAX_ATTEMPTS
      · rw [requestLoop_step429 o attempt b ra h429.2 (h429.1 ▸ hout)]
        have := ih (attempt + 1) (min (b * 2) 8000) (by omega)
        dsimp only at this ⊢
        omega
      · by_cases h5 : (500 ≤ st ∧ st ≤ 599) ∧ attempt + 1 < MAX_ATTEMPTS
        · rw [requestLoop_step5xx o attempt b st ra h5.1 h5.2 hout]
          have := ih (attempt + 1) (min (b * 2) 8000) (by omega)
          dsimp only at this ⊢
          omega
        · rw [requestLoop_returnRes o attempt b st ra hout h429 h5]
          simp [attemptsOf]
    · by_cases hlt : attempt + 1 < MAX_ATTEMPTS
      · rw [requestLoop_stepNet o attempt b hlt hout]
        have := ih (attempt + 1) (min (b * 2) 8000) (by omega)
        dsimp only at this ⊢
        omega
      · rw [requestLoop_failNet o attempt b hlt hout]
        simp [attemptsOf]

/-- A qualifying outcome (429, 5xx, or network error) below the ceiling only
moves the loop one attempt forward; the final result is unchanged. -/
theorem requestLoop_stepQualifying (o : Nat → Outcome) (attempt b : Nat)
    (hlt : attempt + 1 < MAX_ATTEMPTS)
    (hq : isQualifying (o (attempt + 1)) = true) :
    (requestLoop o attempt b).1 =
      (requestLoop o (attempt + 1) (min (b * 2) 8000)).1 := by
  rcases hout : o (attempt + 1) with ⟨st, ra⟩ | _
  · rw [hout] at hq
    simp only [isQualifying, Bool.or_eq_true, beq_iff_eq, Bool.and_eq_true,
      decide_eq_true_eq] at hq
    rcases hq with rfl | hq
    · rw [requestLoop_step429 o attempt b ra hlt hout]
    · rw [requestLoop_step5xx o attempt b st ra hq hlt hout]
  · rw [requestLoop_stepNet o attempt b hlt hout]

/-- Entered at the final allowed attempt, the loop returns the response of that attempt as-is (whatever its status) and propagates a network error. -/
theorem requestLoop_final (o : Nat → Outcome) (b : Nat) :
    (requestLoop o (MAX_ATTEMPTS - 1) b).1 =
      (match o MAX_ATTEMPTS with
        | Outcome.networkError => RetryOutput.failure MAX_ATTEMPTS
        | Outcome.response st _ => RetryOutput.success MAX_ATTEMPTS st) := by
  have hM : MAX_ATTEMPTS = 5 := rfl
  rcases hout : o MAX_ATTEMPTS with ⟨st, ra⟩ | _
  · rw [hM] at hout ⊢
    rw [requestLoop_returnRes o 4 b st ra hout (by omega) (by omega)]
  · rw [hM] at hout ⊢
    rw [requestLoop_failNet o 4 b (by omega) hout]

/-- The wait list the loop produces when every wait is backoff-driven:
starting value `b`, each subsequent entry doubled and capped. -/
def geomList (b : Nat) : Nat → List Nat
  | 0 => []
  | n + 1 => b :: geomList (dblCap b) n

/-- Iterated doubling-with-cap, folded from the left. -/
def iterDbl (b : Nat) : Nat → Nat
  | 0 => b
  | k + 1 => iterDbl (dblCap b) k

/-- Length of `geomList` is as announced. -/
theorem geomList_length (b n : Nat) : (geomList b n).length = n := by
  induction n generalizing b with
  | zero => rfl
  | succ n ih => simp [geomList, ih]

/-- The left-iterated doubling steps off the outside as well. -/
theorem iterDbl_succ_out (b k : Nat) : iterDbl b (k + 1) = dblCap (iterDbl b k) := by
  induction k generalizing b with
  | zero => rfl
  | succ k ih =>
    rw [show iterDbl b (k + 1 + 1) = iterDbl (dblCap b) (k + 1) from rfl, ih,
      show iterDbl b (k + 1) = iterDbl (dblCap b) k from rfl]

/-- Pointwise indexing of `geomList`. -/
theorem geomList_eq_map (b n : Nat) :
    geomList b n = (List.range n).map (fun k => iterDbl b k) := by
  induction n generalizing b with
  | zero => rfl
  | succ n ih =>
    rw [geomList, ih (dblCap b), List.range_succ_eq_map]
    simp [Function.comp, iterDbl]

/-- Closed form of the backoff sequence from its initial value 500. -/
theorem iterDbl_500 (k : Nat) : iterDbl 500 k = min (500 * 2 ^ k) 8000 := by
  induction k with
  | zero => simp [iterDbl]
  | succ k ih =>
    rw [iterDbl_succ_out, ih, dblCap, pow_succ]
    generalize 2 ^ k = x
    omega

/-- With no `Retry-After` header anywhere, every wait the loop performs is
the stored backoff, so the wait list is the doubling-capped sequence from
the entry backoff. -/
theorem requestLoop_waits_noRA (o : Nat → Outcome)
    (hnoRA : ∀ k, hasRetryAfterHeader (o k) = false) :
    ∀ fuel attempt b, MAX_ATTEMPTS - attempt ≤ fuel →
      ∃ n, (requestLoop o attempt b).2 = geomList b n := by
  have hM : MAX_ATTEMPTS = 5 := rfl
  intro fuel
  induction fuel with
  | zero =>
    intro attempt b h
    rcases hout : o (attempt + 1) with ⟨st, ra⟩ | _
    · exact ⟨0, by rw [requestLoop_returnRes o attempt b st ra hout (by omega) (by omega)]; rfl⟩
    · exact ⟨0, by rw [requestLoop_failNet o attempt b (by omega) hout]; rfl⟩
  | succ n ih =>
    intro attempt b h
    rcases hout : o (attempt + 1) with ⟨st, ra⟩ | _
    · by_cases h429 : st = 429 ∧ attempt + 1 < MAX_ATTEMPTS
      · have hra : ra = none := by
          have := hnoRA (attempt + 1)
          rw [hout] at this
          cases ra with
          | none => rfl
          | some x => simp [hasRetryAfterHeader] at this
        obtain ⟨m, hm⟩ := ih (attempt + 1) (min (b * 2) 8000) (by omega)
        refine ⟨m + 1, ?_⟩
        rw [requestLoop_step429 o attempt b ra h429.2 (h429.1 ▸ hout)]
        dsimp only
        rw [hra]
        rw [show wait429 b none = b from rfl, geomList, show dblCap b = min (b * 2) 8000 from rfl, hm]
      · by_cases h5 : (500 ≤ st ∧ st ≤ 599) ∧ attempt + 1 < MAX_ATTEMPTS
        · obtain ⟨m, hm⟩ := ih (attempt + 1) (min (b * 2) 8000) (by omega)
          refine ⟨m + 1, ?_⟩
          rw [requestLoop_step5xx o attempt b st ra h5.1 h5.2 hout]
          dsimp only
          rw [geomList, show dblCap b = min (b * 2) 8000 from rfl, hm]
        · exact ⟨0, by rw [requestLoop_returnRes o attempt b st ra hout h429 h5]; rfl⟩
    · by_cases hlt : attempt + 1 < MAX_ATTEMPTS
      · obtain ⟨m, hm⟩ := ih (attempt + 1) (min (b * 2) 8000) (by omega)
        refine ⟨m + 1, ?_⟩
        rw [requestLoop_stepNet o attempt b hlt hout]
        dsimp only
        rw [geomList, show dblCap b = min (b * 2) 8000 from rfl, hm]
      · exact ⟨0, by rw [requestLoop_failNet o attempt b hlt hout]; rfl⟩

/-- Attempt outcomes refuting claim C1: the first attempt is a 429 carrying
`Retry-After: -5` (parseable, negative), the second succeeds. -/
def outcomesC1 : Nat → Outcome := fun k =>
  if k = 1 then Outcome.response 429 (some (RetryAfterVal.intVal (-5)))
  else Outcome.response 200 none

/-- Claim C1, counterexample: on a 429 whose `Retry-After` header parses to
the negative integer -5, the claim mandates waiting the current stored
backoff (500), but the executor computes `Math.max(0, -5)` and waits 0. -/
theorem C1_counterexample :
    (requestWithRetries outcomesC1).2 = [0] ∧
    (requestWithRetries outcomesC1).2 ≠ [500] := by
  have e2 : requestLoop outcomesC1 1 (min (500 * 2) 8000) = (RetryOutput.success 2 200, []) :=
    requestLoop_returnRes outcomesC1 1 (min (500 * 2) 8000) 200 none rfl (by decide) (by decide)
  have e1 : requestWithRetries outcomesC1 = (RetryOutput.success 2 200, [0]) := by
    rw [requestWithRetries,
      requestLoop_step429 outcomesC1 0 500 (some (RetryAfterVal.intVal (-5))) (by decide) rfl,
      e2]
    decide
  rw [e1]
  exact ⟨rfl, by decide⟩

/-- Claim C1 (amended): on a 429 handled while attempts remain, the executor
waits `max(0, n)` when the `Retry-After` header parses to the integer `n`
(so a negative header waits 0, not the stored backoff), and waits the
current stored backoff when the header is absent or unparseable; in every
case the stored backoff then doubles (capped at 8000) from its own prior
value, unaffected by the header-driven wait. -/
theorem C1_retry_after_wait (outcomes : Nat → Outcome) (attempt b : Nat)
    (ra : Option RetryAfterVal)
    (hlt : attempt + 1 < MAX_ATTEMPTS)
    (hout : outcomes (attempt + 1) = Outcome.response 429 ra) :
    requestLoop outcomes attempt b =
      ((requestLoop outcomes (attempt + 1) (min (b * 2) 8000)).1,
        wait429 b ra :: (requestLoop outcomes (attempt + 1) (min (b * 2) 8000)).2) ∧
    (∀ n : Int, ra = some (RetryAfterVal.intVal n) → 0 ≤ n → wait429 b ra = n.toNat) ∧
    (∀ n : Int, ra = some (RetryAfterVal.intVal n) → n < 0 → wait429 b ra = 0) ∧
    ((ra = none ∨ ra = some RetryAfterVal.malformed) → wait429 b ra = b) := by
  refine ⟨requestLoop_step429 outcomes attempt b ra hlt hout, ?_, ?_, ?_⟩
  · intro n hra hn
    rw [hra]
    simp [wait429, max_eq_right hn]
  · intro n hra hn
    rw [hra]
    simp [wait429, max_eq_left (le_of_lt hn)]
  · rintro (rfl | rfl) <;> rfl

/-- Attempt outcomes exercising the 429 path with a parseable non-negative
`Retry-After` header of 7. -/
def outcomesC1w : Nat → Outcome := fun k =>
  if k = 1 then Outcome.response 429 (some (RetryAfterVal.intVal 7))
  else Outcome.response 200 none

/-- Concrete instance of the C1 theorem: header value 7 on the first
attempt, so the loop waits 7 and continues with backoff 1000. -/
theorem C1_retry_after_wait_witness :
    (0 + 1 < MAX_ATTEMPTS) ∧
    outcomesC1w (0 + 1) = Outcome.response 429 (some (RetryAfterVal.intVal 7)) ∧
    wait429 500 (some (RetryAfterVal.intVal 7)) = (7 : Int).toNat ∧
    requestLoop outcomesC1w 0 500 =
      ((requestLoop outcomesC1w (0 + 1) (min (500 * 2) 8000)).1,
        wait429 500 (some (RetryAfterVal.intVal 7)) ::
          (requestLoop outcomesC1w (0 + 1) (min (500 * 2) 8000)).2) :=
  ⟨by decide, rfl,
    (C1_retry_after_wait outcomesC1w 0 500 (some (RetryAfterVal.intVal 7)) (by decide) rfl).2.1
      7 rfl (by decide),
    (C1_retry_after_wait outcomesC1w 0 500 (some (RetryAfterVal.intVal 7)) (by decide) rfl).1⟩

/-- Claim C2: the executor performs at most `MAX_ATTEMPTS` (5) physical
attempts for every outcome sequence (it is a total function, so it
terminates); and after qualifying failures on every allowed attempt, the
network error of the 5th attempt propagates while a 5th-attempt response (429 or
5xx included) is returned as-is. -/
theorem C2_attempt_ceiling (outcomes : Nat → Outcome) :
    attemptsOf (requestWithRetries outcomes).1 ≤ MAX_ATTEMPTS ∧
    ((∀ k, 1 ≤ k → k ≤ MAX_ATTEMPTS → isQualifying (outcomes k) = true) →
      (requestWithRetries outcomes).1 =
        match outcomes MAX_ATTEMPTS with
        | Outcome.networkError => RetryOutput.failure MAX_ATTEMPTS
        | Outcome.response st _ => RetryOutput.success MAX_ATTEMPTS st) := by
  have hM : MAX_ATTEMPTS = 5 := rfl
  constructor
  · have h := requestLoop_attempts_le outcomes MAX_ATTEMPTS 0 500 (by omega)
    rw [requestWithRetries]
    omega
  · intro hq
    have s1 : (requestLoop outcomes 0 500).1 = (requestLoop outcomes 1 1000).1 :=
      requestLoop_stepQualifying outcomes 0 500 (by omega) (hq 1 (by omega) (by omega))
    have s2 : (requestLoop outcomes 1 1000).1 = (requestLoop outcomes 2 2000).1 :=
      requestLoop_stepQualifying outcomes 1 1000 (by omega) (hq 2 (by omega) (by omega))
    have s3 : (requestLoop outcomes 2 2000).1 = (requestLoop outcomes 3 4000).1 :=
      requestLoop_stepQualifying outcomes 2 2000 (by omega) (hq 3 (by omega) (by omega))
    have s4 : (requestLoop outcomes 3 4000).1 = (requestLoop outcomes 4 8000).1 :=
      requestLoop_stepQualifying outcomes 3 4000 (by omega) (hq 4 (by omega) (by omega))
    have f : (requestLoop outcomes 4 8000).1 =
        (match outcomes MAX_ATTEMPTS with
          | Outcome.networkError => RetryOutput.failure MAX_ATTEMPTS
          | Outcome.response st _ => RetryOutput.success MAX_ATTEMPTS st) :=
      requestLoop_final outcomes 8000
    rw [requestWithRetries, s1, s2, s3, s4, f]

/-- Five consecutive 429 responses. -/
def outcomesC2w : Nat → Outcome := fun _ => Outcome.response 429 none

/-- Concrete instance of the C2 theorem: with every attempt rate-limited,
the 429 response of the 5th attempt is returned as-is. -/
theorem C2_attempt_ceiling_witness :
    (∀ k, 1 ≤ k → k ≤ MAX_ATTEMPTS → isQualifying (outcomesC2w k) = true) ∧
    (requestWithRetries outcomesC2w).1 = RetryOutput.success MAX_ATTEMPTS 429 :=
  ⟨fun _ _ _ => rfl, (C2_attempt_ceiling outcomesC2w).2 (fun _ _ _ => rfl)⟩

/-- Two 503 responses followed by a 200. -/
def outcomes503 : Nat → Outcome := fun k =>
  if k ≤ 2 then Outcome.response 503 none else Outcome.response 200 none

/-- Claim C3: with no `Retry-After` header anywhere, the k-th wait (1-based)
is `min(500 * 2 ^ (k-1), 8000)`; and two 503 responses followed by a 200
give exactly 3 physical attempts with waits of 500 then 1000. -/
theorem C3_backoff_sequence (outcomes : Nat → Outcome) :
    ((∀ k, hasRetryAfterHeader (outcomes k) = false) →
      (requestWithRetries outcomes).2 =
        (List.range (requestWithRetries outcomes).2.length).map
          (fun k => min (500 * 2 ^ k) 8000)) ∧
    requestWithRetries outcomes503 = (RetryOutput.success 3 200, [500, 1000]) ∧
    attemptsOf (requestWithRetries outcomes503).1 = 3 := by
  have hcase : requestWithRetries outcomes503 = (RetryOutput.success 3 200, [500, 1000]) := by
    have e3 : requestLoop outcomes503 2 2000 = (RetryOutput.success 3 200, []) :=
      requestLoop_returnRes outcomes503 2 2000 200 none rfl (by decide) (by decide)
    have e2 : requestLoop outcomes503 1 1000 = (RetryOutput.success 3 200, [1000]) := by
      rw [requestLoop_step5xx outcomes503 1 1000 503 none (by omega) (by decide) rfl]
      have h2 : requestLoop outcomes503 (1 + 1) (min (1000 * 2) 8000) =
          (RetryOutput.success 3 200, []) := e3
      rw [h2]
    have e1 : requestLoop outcomes503 0 500 = (RetryOutput.success 3 200, [500, 1000]) := by
      rw [requestLoop_step5xx outcomes503 0 500 503 none (by omega) (by decide) rfl]
      have h1 : requestLoop outcomes503 (0 + 1) (min (500 * 2) 8000) =
          (RetryOutput.success 3 200, [1000]) := e2
      rw [h1]
    exact e1
  refine ⟨?_, hcase, by rw [hcase]; rfl⟩
  intro hnoRA
  obtain ⟨n, hn⟩ := requestLoop_waits_noRA outcomes hnoRA MAX_ATTEMPTS 0 500 (by omega)
  rw [requestWithRetries, hn, geomList_length, geomList_eq_map]
  exact List.map_congr_left (fun a _ => iterDbl_500 a)

/-- Concrete instance of the C3 formula at the 503-503-200 outcome
sequence. -/
theorem C3_backoff_sequence_witness :
    (∀ k, hasRetryAfterHeader (outcomes503 k) = false) ∧
    (requestWithRetries outcomes503).2 =
      (List.range (requestWithRetries outcomes503).2.length).map
        (fun k => min (500 * 2 ^ k) 8000) := by
  have hno : ∀ k, hasRetryAfterHeader (outcomes503 k) = false := by
    intro k
    simp only [outcomes503]
    split <;> rfl
  exact ⟨hno, (C3_backoff_sequence outcomes503).1 hno⟩

/-- The regex test holds exactly when the length bounds and character class
hold. -/
theorem nameReTest_iff (s : String) :
    nameReTest s = true ↔
      (3 ≤ s.length ∧ s.length ≤ 64 ∧ ∀ c ∈ s.data, isNameChar c = true) := by
  simp [nameReTest, List.all_eq_true, and_assoc]

/-- Claim C5: every string of length 3 to 64 over `[A-Za-z0-9_.-]` passes
name validation; every other string fails it with a message containing the
offending value (independently of whether it is checked as a namespace or as
a key). -/
theorem C5_name_validation (kind s : String) :
    ((3 ≤ s.length ∧ s.length ≤ 64 ∧ ∀ c ∈ s.data, isNameChar c = true) →
      validateName kind s = Except.ok ()) ∧
    (¬(3 ≤ s.length ∧ s.length ≤ 64 ∧ ∀ c ∈ s.data, isNameChar c = true) →
      ∃ a b, validateName kind s = Except.error (a ++ s ++ b)) := by
  constructor
  · intro h
    have ht : nameReTest s = true := (nameReTest_iff s).mpr h
    simp [validateName, ht]
  · intro h
    have ht : nameReTest s = false := by
      cases htr : nameReTest s with
      | false => rfl
      | true => exact absurd ((nameReTest_iff s).mp htr) h
    refine ⟨"Invalid " ++ kind ++ ": must match ^[A-Za-z0-9_-.]\x7b3,64\x7d$ (got \"",
      "\")", ?_⟩
    simp [validateName, ht]

/-- Concrete instances of the C5 theorem: `abc` passes, `hi` (too short)
fails with the value quoted in the message. -/
theorem C5_name_validation_witness :
    ((3 ≤ ("abc" : String).length ∧ ("abc" : String).length ≤ 64 ∧
        ∀ c ∈ ("abc" : String).data, isNameChar c = true) ∧
      validateName "namespace" "abc" = Except.ok ()) ∧
    (¬(3 ≤ ("hi" : String).length ∧ ("hi" : String).length ≤ 64 ∧
        ∀ c ∈ ("hi" : String).data, isNameChar c = true) ∧
      ∃ a b, validateName "key" "hi" = Except.error (a ++ "hi" ++ b)) :=
  ⟨⟨by decide, (C5_name_validation "namespace" "abc").1 (by decide)⟩,
    ⟨by decide, (C5_name_validation "key" "hi").2 (by decide)⟩⟩

/-- Claim C7: body decoding is total and never fails: an empty body decodes
to an empty mapping, a parseable body to the parsed value, and an
unparseable body to a mapping wrapping the raw text under `error` — in
particular the literal text `not-json`. -/
theorem C7_body_decoding :
    (∀ b : Body, b.text = "" → readJsonSafely b = Json.obj []) ∧
    (∀ b : Body, b.text ≠ "" → ∀ j, b.json = some j → readJsonSafely b = j) ∧
    (∀ b : Body, b.text ≠ "" → b.json = none →
      readJsonSafely b = Json.obj [("error", Json.str b.text)]) ∧
    readJsonSafely ⟨"not-json", none⟩ = Json.obj [("error", Json.str "not-json")] := by
  refine ⟨?_, ?_, ?_, rfl⟩
  · intro b h
    simp [readJsonSafely, h]
  · intro b h j hj
    simp [readJsonSafely, h, hj]
  · intro b h hj
    simp [readJsonSafely, h, hj]

/-- Concrete instances of the C7 theorem: empty body, parsed body, and the
`not-json` body. -/
theorem C7_body_decoding_witness :
    readJsonSafely ⟨"", none⟩ = Json.obj [] ∧
    readJsonSafely ⟨"7", some (Json.num 7)⟩ = Json.num 7 ∧
    readJsonSafely ⟨"not-json", none⟩ = Json.obj [("error", Json.str "not-json")] :=
  ⟨C7_body_decoding.1 ⟨"", none⟩ rfl,
    C7_body_decoding.2.1 ⟨"7", some (Json.num 7)⟩ (by decide) (Json.num 7) rfl,
    C7_body_decoding.2.2.1 ⟨"not-json", none⟩ (by decide) rfl⟩

/-- The four read operations, per the partition in the spec. -/
def readOpsList : List String := ["hit", "create", "get", "info"]

/-- The four admin operations, per the partition in the spec. -/
def adminOpsList : List String := ["set", "update", "reset", "delete"]

/-- All eight defined operations. -/
def allOpsList : List String := readOpsList ++ adminOpsList

/-- The request `run` assembles before the exchange: `buildUrl`, `methodFor`,
and the header mapping (lines 165-174 of the source). -/
def builtRequest (op ns key : String) (i v : Option Int) (ak : String) :
    String × String × List (String × String) :=
  (buildUrl op ns key i v, methodFor op, headersFor op ak)

/-- Spec-side definition for the refinement comparison: read operations use GET, admin operations
use POST. -/
def spec_method (op : String) : String :=
  if op ∈ adminOpsList then "POST" else "GET"

/-- Spec-side definition for the refinement comparison: `create` attaches `initializer` (defaulting
to 0 when absent), `set`/`update` attach `value`, no other operation
attaches query parameters. -/
def spec_query (op : String) (i v : Option Int) : String :=
  if op = "create" then "?initializer=" ++ toString (i.getD 0)
  else if op = "set" ∨ op = "update" then "?value=" ++ toString (v.getD 0)
  else ""

/-- Spec-side definition for the refinement comparison: base origin, then `/op/ns/key` with namespace
and key percent-encoded individually, then the query. -/
def spec_url (op ns key : String) (i v : Option Int) : String :=
  BASE_URL ++ "/" ++ op ++ "/" ++ encodeURIComponent ns ++ "/"
    ++ encodeURIComponent key ++ spec_query op i v

/-- Spec-side definition for the refinement comparison: an Accept marker always, a bearer
authorization header exactly for admin operations. -/
def spec_headers (op ak : String) : List (String × String) :=
  ("Accept", "application/json") ::
    (if op ∈ adminOpsList then [("Authorization", "Bearer " ++ ak)] else [])

/-- The constant origin carries no trailing slash, so normalization is the
identity on it. -/
theorem normalizeBaseUrl_BASE_URL : normalizeBaseUrl BASE_URL = BASE_URL := by
  decide

/-- Claim C6: for each of the eight operations (with its parameters present
the way `run` supplies them), the assembled request refines the description in the spec — method by the read/admin partition, URL of shape
`origin/op/ns/key` with the single query parameter of the operation, headers with
the Accept marker and (for admin operations only) the bearer credential; the
URL is the same whatever the credential is; and a `create` invocation with
the `initializer` input absent parses it as the default 0. -/
theorem C6_request_building (op ns key ak : String) (i v : Option Int)
    (hop : op ∈ allOpsList)
    (hi : op = "create" → i.isSome = true)
    (hv : op = "set" ∨ op = "update" → v.isSome = true) :
    builtRequest op ns key i v ak =
      (spec_url op ns key i v, spec_method op, spec_headers op ak) ∧
    (∀ ak2 : String, (builtRequest op ns key i v ak2).1 = (builtRequest op ns key i v ak).1) ∧
    (∀ ns2 key2 : String, nameReTest ns2 = true → jsTrim ns2 ≠ "" →
      nameReTest key2 = true → jsTrim key2 ≠ "" →
      (validatePhase ⟨"create", ns2, key2, "", "", ""⟩).2 =
        Except.ok ("create", some 0, none)) := by
  refine ⟨?_, fun ak2 => rfl, ?_⟩
  · simp only [allOpsList, readOpsList, adminOpsList, List.mem_append, List.mem_cons,
      List.not_mem_nil, or_false] at hop
    rcases hop with (rfl | rfl | rfl | rfl) | (rfl | rfl | rfl | rfl)
    · simp [builtRequest, buildUrl, methodFor, isAdminOp, headersFor, spec_url, spec_method,
        spec_query, spec_headers, adminOpsList, normalizeBaseUrl_BASE_URL, String.append_assoc]
    · obtain ⟨n, rfl⟩ := Option.isSome_iff_exists.mp (hi rfl)
      simp [builtRequest, buildUrl, methodFor, isAdminOp, headersFor, spec_url, spec_method,
        spec_query, spec_headers, adminOpsList, normalizeBaseUrl_BASE_URL, String.append_assoc]
    · simp [builtRequest, buildUrl, methodFor, isAdminOp, headersFor, spec_url, spec_method,
        spec_query, spec_headers, adminOpsList, normalizeBaseUrl_BASE_URL, String.append_assoc]
    · simp [builtRequest, buildUrl, methodFor, isAdminOp, headersFor, spec_url, spec_method,
        spec_query, spec_headers, adminOpsList, normalizeBaseUrl_BASE_URL, String.append_assoc]
    · obtain ⟨n, rfl⟩ := Option.isSome_iff_exists.mp (hv (Or.inl rfl))
      simp [builtRequest, buildUrl, methodFor, isAdminOp, headersFor, spec_url, spec_method,
        spec_query, spec_headers, adminOpsList, normalizeBaseUrl_BASE_URL, String.append_assoc]
    · obtain ⟨n, rfl⟩ := Option.isSome_iff_exists.mp (hv (Or.inr rfl))
      simp [builtRequest, buildUrl, methodFor, isAdminOp, headersFor, spec_url, spec_method,
        spec_query, spec_headers, adminOpsList, normalizeBaseUrl_BASE_URL, String.append_assoc]
    · simp [builtRequest, buildUrl, methodFor, isAdminOp, headersFor, spec_url, spec_method,
        spec_query, spec_headers, adminOpsList, normalizeBaseUrl_BASE_URL, String.append_assoc]
    · simp [builtRequest, buildUrl, methodFor, isAdminOp, headersFor, spec_url, spec_method,
        spec_query, spec_headers, adminOpsList, normalizeBaseUrl_BASE_URL, String.append_assoc]
  · intro ns2 key2 hns hnsb hkey hkb
    have h1 : (ns2 == "") = false := by
      refine beq_eq_false_iff_ne.mpr (fun he => hnsb ?_)
      rw [he]
      rfl
    have h2 : (jsTrim ns2 == "") = false := beq_eq_false_iff_ne.mpr hnsb
    have h3 : (key2 == "") = false := by
      refine beq_eq_false_iff_ne.mpr (fun he => hkb ?_)
      rw [he]
      rfl
    have h4 : (jsTrim key2 == "") = false := beq_eq_false_iff_ne.mpr hkb
    have h5 : parseInteger "initializer" "0" = Except.ok 0 := rfl
    simp [validatePhase, opOf, validateBasics, requireNonEmpty, validateName, parsePhase,
      isAdminOp, h1, h2, h3, h4, h5, hns, hkey, Except.map]

/-- Concrete instance of the C6 theorem at the create scenario of the spec. -/
theorem C6_request_building_witness :
    ("create" ∈ allOpsList) ∧
    builtRequest "create" "ns1" "mykey" (some 5) none "" =
      (spec_url "create" "ns1" "mykey" (some 5) none, spec_method "create",
        spec_headers "create" "") :=
  ⟨by decide,
    (C6_request_building "create" "ns1" "mykey" "" (some 5) none (by decide)
      (fun _ => rfl) (fun h => absurd h (by decide))).1⟩

/-- The events `validatePhase` emits are at most the one `setSecret` on the
input credential, issued only when the operation is an admin one. -/
theorem validatePhase_events (inp : Inputs) :
    (validatePhase inp).1 = [] ∨
    (isAdminOp (opOf inp) = true ∧
      (validatePhase inp).1 = [Event.setSecret inp.admin_key]) := by
  unfold validatePhase
  cases validateBasics inp with
  | error m => simp
  | ok u =>
    cases ha : isAdminOp (opOf inp) with
    | true =>
      simp only [ha, if_true]
      cases requireNonEmpty "admin_key" inp.admin_key with
      | error m => simp
      | ok u2 => simp
    | false => simp [ha]

/-- Trace of `runMain` always extends the validation-phase events. -/
theorem runMain_eq_append (inp : Inputs) (exchange : Except String HttpRes) :
    ∃ tail, runMain inp exchange = (validatePhase inp).1 ++ tail := by
  rcases hvp : validatePhase inp with ⟨ev, r⟩
  cases r with
  | error m => exact ⟨[Event.setFailed m], by simp [runMain, hvp]⟩
  | ok t =>
    rcases t with ⟨operation, i, v⟩
    cases exchange with
    | error m =>
      refine ⟨[Event.httpRequest (buildUrl operation inp.ns inp.key i v) (methodFor operation)
        (headersFor operation inp.admin_key), Event.setFailed m], ?_⟩
      simp [runMain, hvp]
    | ok res =>
      by_cases hok : 200 ≤ res.status ∧ res.status ≤ 299
      · refine ⟨Event.httpRequest (buildUrl operation inp.ns inp.key i v) (methodFor operation)
          (headersFor operation inp.admin_key) :: outputEvents operation (readJsonSafely res.body), ?_⟩
        simp [runMain, hvp, hok]
      · refine ⟨[Event.httpRequest (buildUrl operation inp.ns inp.key i v) (methodFor operation)
          (headersFor operation inp.admin_key), Event.setFailed
            ((match (readJsonSafely res.body).getField "error" with
              | some (Json.str e) => e
              | _ => "Request failed with status " ++ toString res.status) ++
              " (operation=" ++ operation ++ ")")], ?_⟩
        simp [runMain, hvp, hok]

/-- Once a `setSecret` for `s` has been seen, the scan accepts the rest of
any trace. -/
theorem mbuAux_seen (s : String) (tr : List Event) : mbuAux s tr true = true := by
  induction tr with
  | nil => rfl
  | cons e rest ih =>
    cases e with
    | setSecret t => simp [mbuAux, ih]
    | setOutput n v => simp [mbuAux, ih]
    | setFailed m => simp [mbuAux, ih]
    | httpRequest u m h => simp [mbuAux, ih]

/-- For an admin operation, validation either throws before touching the
credential or marks it secret as its only event. -/
theorem validatePhase_admin_shape (inp : Inputs)
    (h : isAdminOp (opOf inp) = true) :
    (∃ m, validatePhase inp = ([], Except.error m)) ∨
    validatePhase inp = ([Event.setSecret inp.admin_key], parsePhase inp (opOf inp)) := by
  unfold validatePhase
  simp only [h, if_true]
  cases validateBasics inp with
  | error m => exact Or.inl ⟨m, rfl⟩
  | ok u =>
    cases requireNonEmpty "admin_key" inp.admin_key with
    | error m => exact Or.inl ⟨m, rfl⟩
    | ok u2 => exact Or.inr rfl

/-- The create scenario of the spec: namespace `ns1`, key `mykey`,
initializer 5. -/
def inpC4 : Inputs := ⟨"create", "ns1", "mykey", "5", "", ""⟩

/-- A 200 response to the create request whose payload carries the returned
`admin_key` `abc123`. -/
def resC4 : HttpRes :=
  ⟨200,
    ⟨"\x7b\"value\":5,\"namespace\":\"ns1\",\"key\":\"mykey\",\"admin_key\":\"abc123\"\x7d",
      some (Json.obj [("value", Json.num 5), ("namespace", Json.str "ns1"),
        ("key", Json.str "mykey"), ("admin_key", Json.str "abc123")])⟩⟩

/-- Claim C4, counterexample: in the create flow the returned `admin_key` is
emitted as an output before the secret-marking call is made on it, so the
marking does not precede every emission. -/
theorem C4_counterexample :
    markedBeforeEveryUse (runMain inpC4 (Except.ok resC4)) "abc123" = false := by
  decide

/-- Claim C4 (amended): the caller-supplied admin credential is secret-marked
before any use or emission; the admin key returned by a create response is
secret-marked as well when it is a string, but only immediately after being
emitted as an output, as the concrete create trace shows. -/
theorem C4_secret_marking (inp : Inputs) (ex : Except String HttpRes)
    (hadmin : isAdminOp (opOf inp) = true) :
    markedBeforeEveryUse (runMain inp ex) inp.admin_key = true ∧
    runMain inpC4 (Except.ok resC4) =
      [Event.httpRequest (buildUrl "create" "ns1" "mykey" (some 5) none) "GET"
          [("Accept", "application/json")],
        Event.setOutput "value" "5", Event.setOutput "namespace" "ns1",
        Event.setOutput "key" "mykey", Event.setOutput "admin_key" "abc123",
        Event.setSecret "abc123"] := by
  constructor
  · rcases validatePhase_admin_shape inp hadmin with ⟨m, hvp⟩ | hvp
    · simp [runMain, hvp, markedBeforeEveryUse, mbuAux, emitsValue]
    · obtain ⟨tail, htail⟩ := runMain_eq_append inp ex
      rw [hvp] at htail
      simp only [List.singleton_append] at htail
      rw [htail]
      simp [markedBeforeEveryUse, mbuAux, mbuAux_seen]
  · decide

/-- A delete invocation with credential `sek123`. -/
def inpC4w : Inputs := ⟨"delete", "ns1", "mykey", "", "", "sek123"⟩

/-- An empty-bodied 200 response. -/
def resC4w : HttpRes := ⟨200, ⟨"", none⟩⟩

/-- Concrete instance of the C4 theorem: the delete credential is marked
before its use in the authorization header. -/
theorem C4_secret_marking_witness :
    isAdminOp (opOf inpC4w) = true ∧
    markedBeforeEveryUse (runMain inpC4w (Except.ok resC4w)) inpC4w.admin_key = true :=
  ⟨by decide, (C4_secret_marking inpC4w (Except.ok resC4w) (by decide)).1⟩

/-- A passed presence check means the input was neither empty nor blank. -/
theorem requireNonEmpty_ok (name value : String)
    (h : requireNonEmpty name value = Except.ok ()) :
    (value == "" || jsTrim value == "") = false := by
  cases hc : (value == "" || jsTrim value == "") with
  | false => rfl
  | true => simp [requireNonEmpty, hc] at h

/-- A passed name check means the regex test held. -/
theorem validateName_ok (kind value : String)
    (h : validateName kind value = Except.ok ()) :
    nameReTest value = true := by
  cases hc : nameReTest value with
  | true => rfl
  | false => simp [validateName, hc] at h

/-- A passed basics phase means both names were present and matched the
pattern. -/
theorem validateBasics_ok (inp : Inputs) (u : Unit)
    (h : validateBasics inp = Except.ok u) :
    (inp.ns == "" || jsTrim inp.ns == "") = false ∧
    (inp.key == "" || jsTrim inp.key == "") = false ∧
    nameReTest inp.ns = true ∧ nameReTest inp.key = true := by
  unfold validateBasics at h
  cases h1 : requireNonEmpty "namespace" inp.ns with
  | error m => simp only [h1] at h; simp at h
  | ok u1 =>
    simp only [h1] at h
    cases h2 : requireNonEmpty "key" inp.key with
    | error m => simp only [h2] at h; simp at h
    | ok u2 =>
      simp only [h2] at h
      cases h3 : validateName "namespace" inp.ns with
      | error m => simp only [h3] at h; simp at h
      | ok u3 =>
        simp only [h3] at h
        exact ⟨requireNonEmpty_ok _ _ h1, requireNonEmpty_ok _ _ h2,
          validateName_ok _ _ h3, validateName_ok _ _ h⟩

/-- A passed parse phase means `set`/`update` had a non-blank value. -/
theorem parsePhase_ok_value (inp : Inputs) (operation op2 : String)
    (i v : Option Int)
    (h : parsePhase inp operation = Except.ok (op2, i, v)) :
    (operation == "set" || operation == "update") = true →
      (inp.value == "" || jsTrim inp.value == "") = false := by
  intro hsu
  cases hbv : (inp.value == "" || jsTrim inp.value == "") with
  | false => rfl
  | true => simp [parsePhase, hsu, hbv] at h

/-- A validation phase that reaches the exchange certifies every condition
claim C9 lists: names present and well-formed, a value for `set`/`update`,
and a credential for admin operations. -/
theorem validatePhase_ok_shape (inp : Inputs) (ev : List Event)
    (operation : String) (i v : Option Int)
    (h : validatePhase inp = (ev, Except.ok (operation, i, v))) :
    (inp.ns == "" || jsTrim inp.ns == "") = false ∧
    (inp.key == "" || jsTrim inp.key == "") = false ∧
    nameReTest inp.ns = true ∧ nameReTest inp.key = true ∧
    (isAdminOp (opOf inp) = true →
      (inp.admin_key == "" || jsTrim inp.admin_key == "") = false) ∧
    ((opOf inp == "set" || opOf inp == "update") = true →
      (inp.value == "" || jsTrim inp.value == "") = false) := by
  unfold validatePhase at h
  cases hb : validateBasics inp with
  | error m => simp only [hb] at h; simp at h
  | ok u =>
    simp only [hb] at h
    obtain ⟨hA, hB, hC, hD⟩ := validateBasics_ok inp u hb
    rcases Bool.eq_false_or_eq_true (isAdminOp (opOf inp)) with hADM | hADM
    · simp only [hADM, if_true] at h
      cases hadm : requireNonEmpty "admin_key" inp.admin_key with
      | error m => simp only [hadm] at h; simp at h
      | ok u2 =>
        simp only [hadm] at h
        rw [Prod.mk.injEq] at h
        refine ⟨hA, hB, hC, hD, fun _ => requireNonEmpty_ok _ _ hadm, ?_⟩
        exact parsePhase_ok_value inp (opOf inp) operation i v h.2
    · simp only [hADM, Bool.false_eq_true, if_false] at h
      rw [Prod.mk.injEq] at h
      refine ⟨hA, hB, hC, hD, fun hcontra => ?_, ?_⟩
      · rw [hcontra] at hADM; cases hADM
      · exact parsePhase_ok_value inp (opOf inp) operation i v h.2

/-- When validation passes, the trace continues with the single HTTP request
built from the validated operation and parameters. -/
theorem runMain_ok_head (inp : Inputs) (ex : Except String HttpRes)
    (ev : List Event) (operation : String) (i v : Option Int)
    (hvp : validatePhase inp = (ev, Except.ok (operation, i, v))) :
    ∃ rest, runMain inp ex =
      ev ++ Event.httpRequest (buildUrl operation inp.ns inp.key i v)
        (methodFor operation) (headersFor operation inp.admin_key) :: rest := by
  cases ex with
  | error m =>
    exact ⟨[Event.setFailed m], by simp [runMain, hvp]⟩
  | ok res =>
    by_cases hok : 200 ≤ res.status ∧ res.status ≤ 299
    · exact ⟨outputEvents operation (readJsonSafely res.body), by simp [runMain, hvp, hok]⟩
    · refine ⟨[Event.setFailed
        ((match (readJsonSafely res.body).getField "error" with
          | some (Json.str e) => e
          | _ => "Request failed with status " ++ toString res.status) ++
          " (operation=" ++ operation ++ ")")], ?_⟩
      simp [runMain, hvp, hok]

/-- Claim C8: when the status of the final response is not 2xx, the invocation
fails, with the `error` field of the payload as the message when that field is a
string and a generic message naming the status otherwise, the operation name
appended in both cases; the failure surfaces as the terminal `setFailed`
event of a total trace, so nothing is thrown past the process boundary. -/
theorem C8_error_interpretation (inp : Inputs) (ev : List Event)
    (operation : String) (i v : Option Int) (res : HttpRes)
    (hvp : validatePhase inp = (ev, Except.ok (operation, i, v)))
    (hst : ¬(200 ≤ res.status ∧ res.status ≤ 299)) :
    runMain inp (Except.ok res) =
      ev ++ [Event.httpRequest (buildUrl operation inp.ns inp.key i v)
          (methodFor operation) (headersFor operation inp.admin_key),
        Event.setFailed
          ((match (readJsonSafely res.body).getField "error" with
            | some (Json.str e) => e
            | _ => "Request failed with status " ++ toString res.status) ++
            " (operation=" ++ operation ++ ")")] := by
  simp [runMain, hvp, hst]

/-- A get invocation using the scenario names of the spec. -/
def inpC8 : Inputs := ⟨"get", "ns1", "mykey", "", "", ""⟩

/-- A 404 response with a string `error` payload. -/
def resC8 : HttpRes :=
  ⟨404, ⟨"\x7b\"error\":\"not found\"\x7d", some (Json.obj [("error", Json.str "not found")])⟩⟩

/-- Concrete instance of the C8 theorem at a 404 with a string error
payload. -/
theorem C8_error_interpretation_witness :
    validatePhase inpC8 = ([], Except.ok ("get", none, none)) ∧
    ¬(200 ≤ resC8.status ∧ resC8.status ≤ 299) ∧
    runMain inpC8 (Except.ok resC8) =
      [] ++ [Event.httpRequest (buildUrl "get" inpC8.ns inpC8.key none none)
          (methodFor "get") (headersFor "get" inpC8.admin_key),
        Event.setFailed
          ((match (readJsonSafely resC8.body).getField "error" with
            | some (Json.str e) => e
            | _ => "Request failed with status " ++ toString resC8.status) ++
            " (operation=" ++ "get" ++ ")")] :=
  ⟨rfl, by decide,
    C8_error_interpretation inpC8 [] "get" none none resC8 rfl (by decide)⟩

/-- Claim C9: with an empty or blank namespace or key, a pattern-violating
namespace or key, a blank value for `set`/`update`, or a blank admin
credential for an admin operation, the invocation fails with a validation
error and its trace contains no HTTP request — the exchange oracle is never
consulted, so validation errors are never retried. -/
theorem C9_validation_precedes_network (inp : Inputs) (ex : Except String HttpRes)
    (h : (inp.ns == "" || jsTrim inp.ns == "") = true ∨
      (inp.key == "" || jsTrim inp.key == "") = true ∨
      nameReTest inp.ns = false ∨ nameReTest inp.key = false ∨
      ((opOf inp == "set" || opOf inp == "update") = true ∧
        (inp.value == "" || jsTrim inp.value == "") = true) ∨
      (isAdminOp (opOf inp) = true ∧
        (inp.admin_key == "" || jsTrim inp.admin_key == "") = true)) :
    (∃ m, (validatePhase inp).2 = Except.error m ∧
      runMain inp ex = (validatePhase inp).1 ++ [Event.setFailed m]) ∧
    (runMain inp ex).all (fun e => !isHttpRequestEvent e) = true := by
  rcases hvp : validatePhase inp with ⟨ev, r⟩
  cases r with
  | ok t =>
    rcases t with ⟨operation, i, v⟩
    obtain ⟨hA, hB, hC, hD, hE, hF⟩ := validatePhase_ok_shape inp ev operation i v hvp
    rcases h with h1 | h1 | h1 | h1 | ⟨h1, h2⟩ | ⟨h1, h2⟩
    · exact Bool.noConfusion (h1.symm.trans hA)
    · exact Bool.noConfusion (h1.symm.trans hB)
    · exact Bool.noConfusion (hC.symm.trans h1)
    · exact Bool.noConfusion (hD.symm.trans h1)
    · exact Bool.noConfusion (h2.symm.trans (hF h1))
    · exact Bool.noConfusion (h2.symm.trans (hE h1))
  | error m =>
    have hev : ev = [] ∨ ev = [Event.setSecret inp.admin_key] := by
      rcases validatePhase_events inp with he | ⟨_, he⟩
      · rw [hvp] at he; exact Or.inl he
      · rw [hvp] at he; exact Or.inr he
    have htr : runMain inp ex = ev ++ [Event.setFailed m] := by
      simp [runMain, hvp]
    refine ⟨⟨m, rfl, by rw [htr]⟩, ?_⟩
    rw [htr]
    rcases hev with rfl | rfl <;> simp [isHttpRequestEvent]

/-- A delete invocation with the credential missing. -/
def inpC9 : Inputs := ⟨"delete", "ns1", "key1", "", "", ""⟩

/-- Concrete instance of the C9 theorem: delete without an admin key fails
validation and issues no request, whatever the network would have done. -/
theorem C9_validation_precedes_network_witness :
    (isAdminOp (opOf inpC9) = true ∧
      (inpC9.admin_key == "" || jsTrim inpC9.admin_key == "") = true) ∧
    ((∃ m, (validatePhase inpC9).2 = Except.error m ∧
      runMain inpC9 (Except.error "connection reset") =
        (validatePhase inpC9).1 ++ [Event.setFailed m]) ∧
    (runMain inpC9 (Except.error "connection reset")).all
      (fun e => !isHttpRequestEvent e) = true) :=
  ⟨by decide,
    C9_validation_precedes_network inpC9 (Except.error "connection reset")
      (Or.inr (Or.inr (Or.inr (Or.inr (Or.inr (by decide))))))⟩

/-- Characters the WHATWG URL parser strips from its input before
processing: tab, line feed, carriage return. -/
def urlStrippedChar (c : Char) : Bool :=
  c.toNat == 9 || c.toNat == 10 || c.toNat == 13

/-- Split a character list at the first occurrence of the character code
`sep`: the part before it, and (when found) the part after it. -/
def splitFirst (sep : Nat) : List Char → List Char × Option (List Char)
  | [] => ([], none)
  | c :: rest =>
    if c.toNat == sep then ([], some rest)
    else
      let r := splitFirst sep rest
      (c :: r.1, r.2)

/-- Split a character list into path segments at every slash. -/
def splitSeg : List Char → List (List Char)
  | [] => [[]]
  | c :: rest =>
    if c.toNat == 0x2F then [] :: splitSeg rest
    else
      match splitSeg rest with
      | s :: ss => (c :: s) :: ss
      | [] => [[c]]

/-- Whether a path segment is a single-dot segment per the WHATWG rule: a
dot, or a percent-encoded dot in either case. -/
def segIsDot (seg : List Char) : Bool :=
  seg == ['.'] || seg == ['%', '2', 'e'] || seg == ['%', '2', 'E']

/-- Whether a path segment is a double-dot segment per the WHATWG rule: two
dots, in any mixture of literal and percent-encoded form. -/
def segIsDotDot (seg : List Char) : Bool :=
  seg == ['.', '.'] || seg == ['.', '%', '2', 'e'] || seg == ['.', '%', '2', 'E'] ||
  seg == ['%', '2', 'e', '.'] || seg == ['%', '2', 'E', '.'] ||
  seg == ['%', '2', 'e', '%', '2', 'e'] || seg == ['%', '2', 'e', '%', '2', 'E'] ||
  seg == ['%', '2', 'E', '%', '2', 'e'] || seg == ['%', '2', 'E', '%', '2', 'E']

/-- Dot-segment resolution over the segments of an absolute path, the
accumulator holding the kept segments in reverse: a double-dot segment pops
the previous segment, a single-dot segment is dropped, and a trailing dot
segment leaves a trailing empty segment. -/
def resolveSegs (acc : List (List Char)) : List (List Char) → List (List Char)
  | [] => acc.reverse
  | seg :: rest =>
    let acc2 := if segIsDotDot seg then acc.tail
      else if segIsDot seg then acc
      else seg :: acc
    match rest with
    | [] =>
      if segIsDotDot seg || segIsDot seg then (([] : List Char) :: acc2).reverse
      else acc2.reverse
    | _ :: _ => resolveSegs acc2 rest

/-- Characters the URL serializer percent-encodes inside a path segment:
controls and space, delete and non-ASCII, double quote, angle brackets,
question mark, backtick, curly braces and hash (codes 0x22, 0x3C, 0x3E,
0x3F, 0x60, 0x7B, 0x7D, 0x23). -/
def pathEncodeChar (c : Char) : Bool :=
  c.toNat ≤ 0x20 || 0x7F ≤ c.toNat || c.toNat == 0x22 || c.toNat == 0x3C ||
    c.toNat == 0x3E || c.toNat == 0x3F || c.toNat == 0x60 || c.toNat == 0x7B ||
    c.toNat == 0x7D || c.toNat == 0x23

/-- Characters the serializer percent-encodes inside the query of a special
(https) URL: controls and space, delete and non-ASCII, double quote, angle
brackets, hash and apostrophe. -/
def queryEncodeChar (c : Char) : Bool :=
  c.toNat ≤ 0x20 || 0x7F ≤ c.toNat || c.toNat == 0x22 || c.toNat == 0x3C ||
    c.toNat == 0x3E || c.toNat == 0x23 || c.toNat == 0x27

/-- Characters the serializer percent-encodes inside the fragment. -/
def fragmentEncodeChar (c : Char) : Bool :=
  c.toNat ≤ 0x20 || 0x7F ≤ c.toNat || c.toNat == 0x22 || c.toNat == 0x3C ||
    c.toNat == 0x3E || c.toNat == 0x60

/-- Percent-encode the characters of a URL component that its encode set
selects, leaving the rest untouched. -/
def encodeComponent (enc : Char → Bool) (cs : List Char) : String :=
  String.join (cs.map (fun c =>
    if enc c then String.join ((utf8Bytes c).map percentByte)
    else String.singleton c))

/-- Model of the WHATWG URL constructor and serializer that
`new URL(base + path)` followed by `toString()` (main.ts:67,76) applies to
the part of its input after the fixed origin: tab and newline stripping,
fragment and query splitting at the first hash and question mark, backslash
treated as slash, dot-segment resolution, and component percent-encoding.
Returns the serialized path, query and fragment. -/
def urlSuffixParts (s : String) : String × Option String × Option String :=
  let cs := s.data.filter (fun c => !urlStrippedChar c)
  let pf := splitFirst 0x23 cs
  let pq := splitFirst 0x3F pf.1
  let pathCs := pq.1.map (fun c => if c.toNat == 0x5C then Char.ofNat 0x2F else c)
  let segs :=
    match splitSeg pathCs with
    | [] :: rest => resolveSegs [] rest
    | other => resolveSegs [] other
  (segs.foldl (fun acc seg => acc ++ "/" ++ encodeComponent pathEncodeChar seg) "",
    pq.2.map (encodeComponent queryEncodeChar),
    pf.2.map (encodeComponent fragmentEncodeChar))

/-- Serialized path-and-beyond of the URL: the path, then the query after a
question mark and the fragment after a hash when present. -/
def urlSerializeSuffix (s : String) : String :=
  let p := urlSuffixParts s
  p.1 ++ (match p.2.1 with | some q => "?" ++ q | none => "") ++
    (match p.2.2 with | some f => "#" ++ f | none => "")

/-- Printable ASCII characters the URL machinery passes through a path
segment untouched: not stripped, not a slash or backslash separator, not a
query or fragment delimiter, not in the path percent-encode set, and not a
percent sign (which could form an encoded dot segment). -/
def urlPathPlainChar (c : Char) : Bool :=
  0x21 ≤ c.toNat && c.toNat ≤ 0x7E &&
  !(c.toNat == 0x22 || c.toNat == 0x3C || c.toNat == 0x3E || c.toNat == 0x3F ||
    c.toNat == 0x60 || c.toNat == 0x7B || c.toNat == 0x7D || c.toNat == 0x23 ||
    c.toNat == 0x25 || c.toNat == 0x5C || c.toNat == 0x2F)

/-- An operation string the URL serializer is the identity on as a path
segment: every character plain, and not a dot segment. -/
def urlSafeOp (op : String) : Bool :=
  op.data.all urlPathPlainChar && !(op == ".") && !(op == "..")

/-- Every identifier character is a plain path character for the URL
serializer. -/
theorem nameChar_plain (c : Char) (h : isNameChar c = true) :
    urlPathPlainChar c = true := by
  have hn : (65 ≤ c.toNat ∧ c.toNat ≤ 90) ∨ (97 ≤ c.toNat ∧ c.toNat ≤ 122) ∨
      (48 ≤ c.toNat ∧ c.toNat ≤ 57) ∨ c.toNat = 95 ∨ c.toNat = 46 ∨ c.toNat = 45 := by
    simp only [isNameChar, Bool.or_eq_true, beq_iff_eq] at h
    rcases h with (((hA | hD) | rfl) | rfl) | rfl
    · simp only [Char.isAlpha, Bool.or_eq_true] at hA
      rcases hA with hU | hL
      · exact Or.inl (by simpa [Char.isUpper] using hU)
      · exact Or.inr (Or.inl (by simpa [Char.isLower] using hL))
    · exact Or.inr (Or.inr (Or.inl (by simpa [Char.isDigit] using hD)))
    · exact Or.inr (Or.inr (Or.inr (Or.inl (by decide))))
    · exact Or.inr (Or.inr (Or.inr (Or.inr (Or.inl (by decide)))))
    · exact Or.inr (Or.inr (Or.inr (Or.inr (Or.inr (by decide)))))
  simp only [urlPathPlainChar, Bool.and_eq_true, Bool.not_eq_true', Bool.or_eq_false_iff,
    beq_eq_false_iff_ne, decide_eq_true_eq, ne_eq]
  omega

/-- A plain path character passes every stage of the URL pipeline
untouched: it is not stripped, not a delimiter, and not percent-encoded. -/
theorem plainChar_pipeline (c : Char) (h : urlPathPlainChar c = true) :
    urlStrippedChar c = false ∧ (c.toNat == 0x23) = false ∧
    (c.toNat == 0x3F) = false ∧ (c.toNat == 0x5C) = false ∧
    (c.toNat == 0x2F) = false ∧ pathEncodeChar c = false := by
  simp only [urlPathPlainChar, Bool.and_eq_true, Bool.not_eq_true', Bool.or_eq_false_iff,
    beq_eq_false_iff_ne, decide_eq_true_eq, ne_eq] at h
  simp only [urlStrippedChar, pathEncodeChar, Bool.or_eq_false_iff, beq_eq_false_iff_ne,
    decide_eq_false_iff_not, ne_eq]
  omega

/-- A list with no separator character is untouched by `splitFirst`. -/
theorem splitFirst_eq_none (sep : Nat) (cs : List Char)
    (h : ∀ c ∈ cs, (c.toNat == sep) = false) :
    splitFirst sep cs = (cs, none) := by
  induction cs with
  | nil => rfl
  | cons c rest ih =>
    simp only [splitFirst, h c (List.mem_cons_self c rest), Bool.false_eq_true, if_false,
      ih (fun d hd => h d (List.mem_cons_of_mem c hd))]

/-- A list with no backslash is untouched by the backslash-to-slash map. -/
theorem map_backslash_id (cs : List Char)
    (h : ∀ c ∈ cs, (c.toNat == 0x5C) = false) :
    cs.map (fun c => if c.toNat == 0x5C then Char.ofNat 0x2F else c) = cs := by
  induction cs with
  | nil => rfl
  | cons c rest ih =>
    simp only [List.map_cons, h c (List.mem_cons_self c rest), Bool.false_eq_true, if_false,
      ih (fun d hd => h d (List.mem_cons_of_mem c hd)), List.cons.injEq, and_self]

/-- Splitting at slashes peels off a slash-free prefix as one segment. -/
theorem splitSeg_append (cs rest : List Char)
    (h : ∀ c ∈ cs, (c.toNat == 0x2F) = false) :
    splitSeg (cs ++ '/' :: rest) = cs :: splitSeg rest := by
  induction cs with
  | nil => simp [splitSeg]
  | cons c cs2 ih =>
    rw [List.cons_append]
    simp only [splitSeg, h c (List.mem_cons_self c cs2), Bool.false_eq_true, if_false,
      ih (fun d hd => h d (List.mem_cons_of_mem c hd))]

/-- A slash-free list is a single segment. -/
theorem splitSeg_nosep (cs : List Char)
    (h : ∀ c ∈ cs, (c.toNat == 0x2F) = false) :
    splitSeg cs = [cs] := by
  induction cs with
  | nil => rfl
  | cons c cs2 ih =>
    simp only [splitSeg, h c (List.mem_cons_self c cs2), Bool.false_eq_true, if_false,
      ih (fun d hd => h d (List.mem_cons_of_mem c hd))]

/-- One resolution step on a non-final segment. -/
theorem resolveSegs_cons_cons (acc : List (List Char)) (seg s2 : List Char)
    (rest2 : List (List Char)) :
    resolveSegs acc (seg :: s2 :: rest2) =
      resolveSegs (if segIsDotDot seg then acc.tail
        else if segIsDot seg then acc else seg :: acc) (s2 :: rest2) := rfl

/-- Resolution of the final segment. -/
theorem resolveSegs_single (acc : List (List Char)) (seg : List Char) :
    resolveSegs acc [seg] =
      (if segIsDotDot seg || segIsDot seg then
        (([] : List Char) :: (if segIsDotDot seg then acc.tail
          else if segIsDot seg then acc else seg :: acc)).reverse
      else (if segIsDotDot seg then acc.tail
        else if segIsDot seg then acc else seg :: acc).reverse) := rfl

/-- Dot-segment resolution is the identity on a list of non-dot segments. -/
theorem resolveSegs_no_dots (segs : List (List Char)) :
    ∀ acc, (∀ s ∈ segs, segIsDot s = false ∧ segIsDotDot s = false) →
      resolveSegs acc segs = acc.reverse ++ segs := by
  induction segs with
  | nil => intro acc _; simp [resolveSegs]
  | cons seg rest ih =>
    intro acc h
    obtain ⟨hdot, hdd⟩ := h seg (List.mem_cons_self seg rest)
    cases rest with
    | nil =>
      rw [resolveSegs_single]
      simp [hdot, hdd]
    | cons s2 rest2 =>
      rw [resolveSegs_cons_cons]
      simp only [hdot, hdd, Bool.false_eq_true, if_false]
      rw [ih (seg :: acc) (fun s hs => h s (List.mem_cons_of_mem seg hs))]
      simp

/-- Folding string appends of singletons onto an accumulator rebuilds the
string. -/
theorem foldl_append_singletons (cs : List Char) :
    ∀ acc : String, List.foldl (· ++ ·) acc (cs.map String.singleton) = acc ++ String.mk cs := by
  induction cs with
  | nil =>
    intro acc
    rw [List.map_nil, List.foldl_nil]
    exact (String.append_empty acc).symm
  | cons c cs2 ih =>
    intro acc
    rw [List.map_cons, List.foldl_cons, ih, String.append_assoc]
    rfl

/-- Joining the singletons of a character list gives the string it spells. -/
theorem join_singletons (cs : List Char) :
    String.join (cs.map String.singleton) = String.mk cs := by
  unfold String.join
  rw [foldl_append_singletons]
  exact String.empty_append _

/-- Component encoding is the identity when no character is selected. -/
theorem encodeComponent_plain (enc : Char → Bool) (cs : List Char)
    (h : ∀ c ∈ cs, enc c = false) :
    encodeComponent enc cs = String.mk cs := by
  unfold encodeComponent
  rw [List.map_congr_left (fun c hc => by simp [h c hc] : ∀ c ∈ cs,
    (if enc c then String.join ((utf8Bytes c).map percentByte) else String.singleton c)
      = String.singleton c)]
  exact join_singletons cs

/-- The URI-component encoder folded over unreserved characters only appends
them unchanged. -/
theorem encodeURIComponent_foldl (cs : List Char) :
    ∀ acc : String, (∀ c ∈ cs, uriUnreserved c = true) →
      cs.foldl
        (fun acc c =>
          acc ++ (if uriUnreserved c then String.singleton c
                  else String.join ((utf8Bytes c).map percentByte)))
        acc = acc ++ String.mk cs := by
  induction cs with
  | nil =>
    intro acc _
    exact (String.append_empty acc).symm
  | cons c cs2 ih =>
    intro acc h
    rw [List.foldl_cons, h c (List.mem_cons_self c cs2), if_pos rfl,
      ih _ (fun d hd => h d (List.mem_cons_of_mem c hd)), String.append_assoc]
    rfl

/-- On a valid identifier (all characters unreserved), `encodeURIComponent`
is the identity — the encoded namespace and key are the raw ones. -/
theorem encodeURIComponent_nameRe (s : String) (h : nameReTest s = true) :
    encodeURIComponent s = s := by
  have hall : ∀ c ∈ s.data, uriUnreserved c = true := by
    intro c hc
    have hn := ((nameReTest_iff s).mp h).2.2 c hc
    simp only [isNameChar, Bool.or_eq_true, beq_iff_eq] at hn
    rcases hn with (((hA | hD) | rfl) | rfl) | rfl
    · simp [uriUnreserved, hA]
    · simp [uriUnreserved, hD]
    · decide
    · decide
    · decide
  unfold encodeURIComponent
  rw [encodeURIComponent_foldl s.data "" hall]
  exact String.empty_append _

/-- A percent-free segment other than a literal dot is no single-dot
segment. -/
theorem segIsDot_false_of_plain (cs : List Char)
    (hall : ∀ c ∈ cs, urlPathPlainChar c = true) (h1 : cs ≠ ['.']) :
    segIsDot cs = false := by
  have hp : ∀ v : List Char, '%' ∈ v → (cs == v) = false := by
    intro v hv
    refine beq_eq_false_iff_ne.mpr (fun he => ?_)
    have := hall '%' (he ▸ hv)
    exact absurd this (by decide)
  simp [segIsDot, beq_eq_false_iff_ne.mpr h1, hp ['%', '2', 'e'] (by decide),
    hp ['%', '2', 'E'] (by decide)]

/-- A percent-free segment other than two literal dots is no double-dot
segment. -/
theorem segIsDotDot_false_of_plain (cs : List Char)
    (hall : ∀ c ∈ cs, urlPathPlainChar c = true) (h2 : cs ≠ ['.', '.']) :
    segIsDotDot cs = false := by
  have hp : ∀ v : List Char, '%' ∈ v → (cs == v) = false := by
    intro v hv
    refine beq_eq_false_iff_ne.mpr (fun he => ?_)
    have := hall '%' (he ▸ hv)
    exact absurd this (by decide)
  simp [segIsDotDot, beq_eq_false_iff_ne.mpr h2, hp ['.', '%', '2', 'e'] (by decide),
    hp ['.', '%', '2', 'E'] (by decide), hp ['%', '2', 'e', '.'] (by decide),
    hp ['%', '2', 'E', '.'] (by decide), hp ['%', '2', 'e', '%', '2', 'e'] (by decide),
    hp ['%', '2', 'e', '%', '2', 'E'] (by decide), hp ['%', '2', 'E', '%', '2', 'e'] (by decide),
    hp ['%', '2', 'E', '%', '2', 'E'] (by decide)]

/-- A valid identifier is at least three characters long, so its segment is
no dot segment, and its characters are plain. -/
theorem nameSeg_facts (s : String) (h : nameReTest s = true) :
    (∀ c ∈ s.data, urlPathPlainChar c = true) ∧
    segIsDot s.data = false ∧ segIsDotDot s.data = false := by
  obtain ⟨hlen, _, hchars⟩ := (nameReTest_iff s).mp h
  have hall : ∀ c ∈ s.data, urlPathPlainChar c = true :=
    fun c hc => nameChar_plain c (hchars c hc)
  have hlen3 : 3 ≤ s.data.length := hlen
  refine ⟨hall, segIsDot_false_of_plain s.data hall ?_, segIsDotDot_false_of_plain s.data hall ?_⟩
  · intro he
    rw [he] at hlen3
    simp at hlen3
  · intro he
    rw [he] at hlen3
    simp at hlen3

/-- On a serializer-safe operation segment and valid identifier segments,
the modelled URL constructor leaves the concatenated suffix untouched: it
serializes to itself, with no query and no fragment component. -/
theorem urlSuffix_safe (op ns key : String) (hop : urlSafeOp op = true)
    (hns : nameReTest ns = true) (hkey : nameReTest key = true) :
    urlSuffixParts ("/" ++ op ++ "/" ++ ns ++ "/" ++ key) =
      ("/" ++ op ++ "/" ++ ns ++ "/" ++ key, none, none) := by
  have hop3 : (∀ c ∈ op.data, urlPathPlainChar c = true) ∧
      (op == ".") = false ∧ (op == "..") = false := by
    simpa [urlSafeOp, Bool.and_eq_true, List.all_eq_true, Bool.not_eq_true', and_assoc]
      using hop
  obtain ⟨hopAll, hopD1, hopD2⟩ := hop3
  have hopDot : segIsDot op.data = false := by
    refine segIsDot_false_of_plain op.data hopAll (fun he => ?_)
    have h2 : op = "." := String.ext he
    rw [h2] at hopD1
    exact absurd hopD1 (by decide)
  have hopDD : segIsDotDot op.data = false := by
    refine segIsDotDot_false_of_plain op.data hopAll (fun he => ?_)
    have h2 : op = ".." := String.ext he
    rw [h2] at hopD2
    exact absurd hopD2 (by decide)
  obtain ⟨hnsAll, hnsDot, hnsDD⟩ := nameSeg_facts ns hns
  obtain ⟨hkeyAll, hkeyDot, hkeyDD⟩ := nameSeg_facts key hkey
  have hdata : ("/" ++ op ++ "/" ++ ns ++ "/" ++ key).data =
      '/' :: (op.data ++ '/' :: (ns.data ++ '/' :: key.data)) := by
    simp [String.data_append]
  have hmem : ∀ c ∈ '/' :: (op.data ++ '/' :: (ns.data ++ '/' :: key.data)),
      urlPathPlainChar c = true ∨ c = '/' := by
    intro c hc
    simp only [List.mem_cons, List.mem_append] at hc
    rcases hc with rfl | hA | rfl | hB | rfl | hC
    · exact Or.inr rfl
    · exact Or.inl (hopAll c hA)
    · exact Or.inr rfl
    · exact Or.inl (hnsAll c hB)
    · exact Or.inr rfl
    · exact Or.inl (hkeyAll c hC)
  have hstrip : ('/' :: (op.data ++ '/' :: (ns.data ++ '/' :: key.data))).filter
      (fun c => !urlStrippedChar c) = '/' :: (op.data ++ '/' :: (ns.data ++ '/' :: key.data)) := by
    refine List.filter_eq_self.mpr (fun c hc => ?_)
    rcases hmem c hc with h | rfl
    · simp [(plainChar_pipeline c h).1]
    · decide
  have hhash : splitFirst 0x23 ('/' :: (op.data ++ '/' :: (ns.data ++ '/' :: key.data))) =
      ('/' :: (op.data ++ '/' :: (ns.data ++ '/' :: key.data)), none) := by
    refine splitFirst_eq_none 0x23 _ (fun c hc => ?_)
    rcases hmem c hc with h | rfl
    · exact (plainChar_pipeline c h).2.1
    · decide
  have hquest : splitFirst 0x3F ('/' :: (op.data ++ '/' :: (ns.data ++ '/' :: key.data))) =
      ('/' :: (op.data ++ '/' :: (ns.data ++ '/' :: key.data)), none) := by
    refine splitFirst_eq_none 0x3F _ (fun c hc => ?_)
    rcases hmem c hc with h | rfl
    · exact (plainChar_pipeline c h).2.2.1
    · decide
  have hback : ('/' :: (op.data ++ '/' :: (ns.data ++ '/' :: key.data))).map
      (fun c => if c.toNat == 0x5C then Char.ofNat 0x2F else c) =
      '/' :: (op.data ++ '/' :: (ns.data ++ '/' :: key.data)) := by
    refine map_backslash_id _ (fun c hc => ?_)
    rcases hmem c hc with h | rfl
    · exact (plainChar_pipeline c h).2.2.2.1
    · decide
  have hopSlash : ∀ c ∈ op.data, (c.toNat == 0x2F) = false :=
    fun c hc => (plainChar_pipeline c (hopAll c hc)).2.2.2.2.1
  have hnsSlash : ∀ c ∈ ns.data, (c.toNat == 0x2F) = false :=
    fun c hc => (plainChar_pipeline c (hnsAll c hc)).2.2.2.2.1
  have hkeySlash : ∀ c ∈ key.data, (c.toNat == 0x2F) = false :=
    fun c hc => (plainChar_pipeline c (hkeyAll c hc)).2.2.2.2.1
  have hsegs : splitSeg ('/' :: (op.data ++ '/' :: (ns.data ++ '/' :: key.data))) =
      [] :: op.data :: ns.data :: [key.data] := by
    have h0 : splitSeg ('/' :: (op.data ++ '/' :: (ns.data ++ '/' :: key.data))) =
        [] :: splitSeg (op.data ++ '/' :: (ns.data ++ '/' :: key.data)) := rfl
    rw [h0, splitSeg_append op.data _ hopSlash, splitSeg_append ns.data _ hnsSlash,
      splitSeg_nosep key.data hkeySlash]
  have hdots : ∀ s ∈ [op.data, ns.data, key.data],
      segIsDot s = false ∧ segIsDotDot s = false := by
    intro s hs
    simp only [List.mem_cons, List.not_mem_nil, or_false] at hs
    rcases hs with rfl | rfl | rfl
    exacts [⟨hopDot, hopDD⟩, ⟨hnsDot, hnsDD⟩, ⟨hkeyDot, hkeyDD⟩]
  have hres : resolveSegs [] [op.data, ns.data, key.data] = [op.data, ns.data, key.data] := by
    simpa using resolveSegs_no_dots [op.data, ns.data, key.data] [] hdots
  have hencOp : encodeComponent pathEncodeChar op.data = String.mk op.data :=
    encodeComponent_plain _ _ (fun c hc => (plainChar_pipeline c (hopAll c hc)).2.2.2.2.2)
  have hencNs : encodeComponent pathEncodeChar ns.data = String.mk ns.data :=
    encodeComponent_plain _ _ (fun c hc => (plainChar_pipeline c (hnsAll c hc)).2.2.2.2.2)
  have hencKey : encodeComponent pathEncodeChar key.data = String.mk key.data :=
    encodeComponent_plain _ _ (fun c hc => (plainChar_pipeline c (hkeyAll c hc)).2.2.2.2.2)
  unfold urlSuffixParts
  simp only [hdata, hstrip, hhash, hquest, hback, hsegs, hres, Option.map_none]
  simp only [List.foldl_cons, List.foldl_nil, hencOp, hencNs, hencKey]
  refine congrArg (fun p => (p, (none : Option String), (none : Option String))) ?_
  apply String.ext
  simp [String.data_append]

/-- Claim C10, counterexample at the operation strings `a b` and `x?y`:
validation indeed passes, but the URL constructor the source feeds the
concatenated path through (modelled by `urlSuffixParts`) percent-encodes
the space of `a b`, so the request does not go to the claimed
`origin/{operation}/{namespace}/{key}`; and for `x?y` the text after the
question mark becomes a query component, contradicting the claimed absence
of query parameters. -/
theorem C10_counterexample :
    (validatePhase ⟨"a b", "ns1", "key1", "", "", ""⟩).2 =
      Except.ok ("a b", none, none) ∧
    urlSerializeSuffix ("/" ++ "a b" ++ "/" ++ encodeURIComponent "ns1" ++ "/"
        ++ encodeURIComponent "key1") = "/a%20b/ns1/key1" ∧
    BASE_URL ++ urlSerializeSuffix ("/" ++ "a b" ++ "/" ++ encodeURIComponent "ns1" ++ "/"
        ++ encodeURIComponent "key1") ≠
      BASE_URL ++ "/" ++ "a b" ++ "/" ++ encodeURIComponent "ns1" ++ "/"
        ++ encodeURIComponent "key1" ∧
    (validatePhase ⟨"x?y", "ns1", "key1", "", "", ""⟩).2 =
      Except.ok ("x?y", none, none) ∧
    (urlSuffixParts ("/" ++ "x?y" ++ "/" ++ encodeURIComponent "ns1" ++ "/"
        ++ encodeURIComponent "key1")).2.1 = some "y/ns1/key1" :=
  ⟨rfl, by decide, by decide, rfl, by decide⟩

/-- Claim C10 (amended, implicit): an operation string outside the eight
defined variants (with valid namespace and key) raises no validation error
and is treated as a read operation — the request uses GET and carries only
the Accept header — and, when the operation consists of characters the URL
serializer passes through untouched and is not a dot segment, the request
goes to `origin/{operation}/{ns}/{key}` with no query parameters, the URL
normalization being the identity on the concatenated path; operation
strings containing URL metacharacters instead undergo WHATWG
percent-encoding, dot-segment resolution or query splitting. -/
theorem C10_unknown_operation (inp : Inputs) (ex : Except String HttpRes)
    (hop : inp.operation ∉ allOpsList) (hne : inp.operation ≠ "")
    (hns : nameReTest inp.ns = true)
    (hnsb : (inp.ns == "" || jsTrim inp.ns == "") = false)
    (hkey : nameReTest inp.key = true)
    (hkb : (inp.key == "" || jsTrim inp.key == "") = false) :
    validatePhase inp = ([], Except.ok (inp.operation, none, none)) ∧
    methodFor inp.operation = "GET" ∧
    (∃ rest, runMain inp ex =
      Event.httpRequest (buildUrl inp.operation inp.ns inp.key none none) "GET"
        [("Accept", "application/json")] :: rest) ∧
    (urlSafeOp inp.operation = true →
      urlSuffixParts ("/" ++ inp.operation ++ "/" ++ encodeURIComponent inp.ns ++ "/"
          ++ encodeURIComponent inp.key) =
        ("/" ++ inp.operation ++ "/" ++ encodeURIComponent inp.ns ++ "/"
          ++ encodeURIComponent inp.key, none, none) ∧
      urlSerializeSuffix ("/" ++ inp.operation ++ "/" ++ encodeURIComponent inp.ns ++ "/"
          ++ encodeURIComponent inp.key) =
        "/" ++ inp.operation ++ "/" ++ encodeURIComponent inp.ns ++ "/"
          ++ encodeURIComponent inp.key ∧
      buildUrl inp.operation inp.ns inp.key none none =
        BASE_URL ++ "/" ++ inp.operation ++ "/" ++ encodeURIComponent inp.ns ++ "/"
          ++ encodeURIComponent inp.key) := by
  simp only [allOpsList, readOpsList, adminOpsList, List.mem_append, List.mem_cons,
    List.not_mem_nil, or_false, not_or] at hop
  obtain ⟨⟨hhit, hcreate, hget, hinfo⟩, hset, hupd, hreset, hdel⟩ := hop
  have hbne : (inp.operation == "") = false := beq_eq_false_iff_ne.mpr hne
  have hbcreate : (inp.operation == "create") = false := beq_eq_false_iff_ne.mpr hcreate
  have hbset : (inp.operation == "set") = false := beq_eq_false_iff_ne.mpr hset
  have hbupd : (inp.operation == "update") = false := beq_eq_false_iff_ne.mpr hupd
  have hbreset : (inp.operation == "reset") = false := beq_eq_false_iff_ne.mpr hreset
  have hbdel : (inp.operation == "delete") = false := beq_eq_false_iff_ne.mpr hdel
  have hopOf : opOf inp = inp.operation := by simp [opOf, hbne]
  have hadm : isAdminOp inp.operation = false := by
    simp [isAdminOp, hbset, hbupd, hbreset, hbdel]
  have hvb : validateBasics inp = Except.ok () := by
    simp [validateBasics, requireNonEmpty, validateName, hnsb, hkb, hns, hkey]
  have hvp : validatePhase inp = ([], Except.ok (inp.operation, none, none)) := by
    simp [validatePhase, hopOf, hvb, hadm, parsePhase, hbcreate, hbset, hbupd]
  have hmethod : methodFor inp.operation = "GET" := by simp [methodFor, hadm]
  have hheaders : headersFor inp.operation inp.admin_key = [("Accept", "application/json")] := by
    simp [headersFor, hadm]
  refine ⟨hvp, hmethod, ?_, ?_⟩
  · obtain ⟨rest, hr⟩ := runMain_ok_head inp ex [] inp.operation none none hvp
    refine ⟨rest, ?_⟩
    rw [hr, hmethod, hheaders]
    simp
  · intro hsafe
    rw [encodeURIComponent_nameRe inp.ns hns, encodeURIComponent_nameRe inp.key hkey]
    have hid := urlSuffix_safe inp.operation inp.ns inp.key hsafe hns hkey
    refine ⟨hid, ?_, ?_⟩
    · simp [urlSerializeSuffix, hid, String.append_empty]
    · simp [buildUrl, hbcreate, hbset, hbupd, normalizeBaseUrl_BASE_URL, String.append_assoc,
        encodeURIComponent_nameRe inp.ns hns, encodeURIComponent_nameRe inp.key hkey]

/-- An invocation with the undefined, serializer-safe operation `foo`. -/
def inpC10 : Inputs := ⟨"foo", "ns1", "key1", "", "", ""⟩

/-- Concrete instance of the C10 theorem at operation `foo`. -/
theorem C10_unknown_operation_witness :
    (inpC10.operation ∉ allOpsList ∧ inpC10.operation ≠ "" ∧
      nameReTest inpC10.ns = true ∧ nameReTest inpC10.key = true ∧
      urlSafeOp inpC10.operation = true) ∧
    validatePhase inpC10 = ([], Except.ok (inpC10.operation, none, none)) ∧
    methodFor inpC10.operation = "GET" ∧
    (∃ rest, runMain inpC10 (Except.ok ⟨200, ⟨"", none⟩⟩) =
      Event.httpRequest (buildUrl inpC10.operation inpC10.ns inpC10.key none none) "GET"
        [("Accept", "application/json")] :: rest) ∧
    urlSerializeSuffix ("/" ++ inpC10.operation ++ "/" ++ encodeURIComponent inpC10.ns ++ "/"
        ++ encodeURIComponent inpC10.key) =
      "/" ++ inpC10.operation ++ "/" ++ encodeURIComponent inpC10.ns ++ "/"
        ++ encodeURIComponent inpC10.key := by
  have h := C10_unknown_operation inpC10 (Except.ok ⟨200, ⟨"", none⟩⟩)
    (by decide) (by decide) (by decide) (by decide) (by decide) (by decide)
  exact ⟨⟨by decide, by decide, by decide, by decide, by decide⟩,
    h.1, h.2.1, h.2.2.1, (h.2.2.2 (by decide)).2.1⟩
